import Mathlib

/-!
# vectorAdd_dmabuf.cpp: a verification development

A shallow embedding of `src/vectorAdd_dmabuf.cpp` (the `export_dmabuf` stub, the
`vectorAdd` kernel and `main`) and theorems about it.

Conventions of the embedding.

* `float` is IEEE-754 binary32 at the level of values (`F32`): a finite value is
  the rational it denotes, arithmetic rounds to nearest, ties to even.  The two
  zeros are identified and so are all NaNs.
* `int` is a 32-bit integer.  An `int` operation whose result is outside the
  range of `int` is undefined behaviour and yields `none` (`checkedInt`), and so
  does a division by zero.  A conversion to `int` reduces its operand
  (`wrapInt`); `unsigned int` arithmetic is modulo `2 ^ 32`.
* Memory is the list of the buffers allocated so far; a pointer (`Ptr`) is the
  number of the allocation it points into.  A load or store outside its buffer
  is undefined behaviour and yields `none`.
* Calls with an effect outside the program's memory (`printf`, `close`, the HIP
  runtime calls) are recorded, in program order, as a list of `Effect`s.
-/

namespace VectorAddDmabuf

/-! ## Single-precision values -/

/-- Values of the C type `float`. -/
inductive F32 where
  | nan
  | inf (neg : Bool)
  | fin (q : ℚ)
deriving DecidableEq

/-- Nearest integer to a rational, ties to the even neighbour. -/
def roundHalfEven (x : ℚ) : ℤ :=
  let f := ⌊x⌋
  let d := x - f
  if d < 1 / 2 then f
  else if 1 / 2 < d then f + 1
  else if f % 2 = 0 then f else f + 1

/-- Rounding of an exact result to binary32: 24 significant bits, least exponent
`-126` (subnormals below it), overflow to infinity from `2 ^ 128`. -/
def F32.round (q : ℚ) : F32 :=
  if q = 0 then F32.fin 0
  else
    let e : ℤ := max (Int.log 2 |q|) (-126)
    let k : ℤ := e - 23
    let v : ℚ := (roundHalfEven (q / (2 : ℚ) ^ k) : ℚ) * (2 : ℚ) ^ k
    if (2 : ℚ) ^ (128 : ℕ) ≤ |v| then F32.inf (decide (q < 0)) else F32.fin v

/-- The conversion `(float)i` of an `int`. -/
def F32.ofInt (i : ℤ) : F32 := F32.round (i : ℚ)

/-- Unary minus on `float`. -/
def F32.neg : F32 → F32
  | F32.nan => F32.nan
  | F32.inf s => F32.inf (!s)
  | F32.fin q => F32.fin (-q)

/-- The `float` sum `a + b`. -/
def F32.add : F32 → F32 → F32
  | F32.nan, _ => F32.nan
  | _, F32.nan => F32.nan
  | F32.inf s, F32.inf t => if s = t then F32.inf s else F32.nan
  | F32.inf s, F32.fin _ => F32.inf s
  | F32.fin _, F32.inf t => F32.inf t
  | F32.fin a, F32.fin b => F32.round (a + b)

/-- The `float` difference `a - b`. -/
def F32.sub (a b : F32) : F32 := F32.add a (F32.neg b)

/-- The function `fabs`. -/
def F32.fabs : F32 → F32
  | F32.nan => F32.nan
  | F32.inf _ => F32.inf false
  | F32.fin q => F32.fin |q|

/-- The literal `1e-5`: the `double` nearest to `10 ^ (-5)`,
`0x1.4f8b588e368f1p-17`. -/
def tolerance : ℚ := 5902958103587057 / 2 ^ 69

/-- The comparison `x > d` of a `float` (promoted, exactly, to `double`) with a
finite `double` `d`; a comparison with NaN is false. -/
def F32.gt (x : F32) (d : ℚ) : Bool :=
  match x with
  | F32.nan => false
  | F32.inf s => !s
  | F32.fin q => decide (d < q)

/-! ## Machine integers -/

/-- Largest value of `int`. -/
def INT_MAX : ℤ := 2147483647

/-- Least value of `int`. -/
def INT_MIN : ℤ := -2147483648

/-- Conversion of an integer to `int`: reduction to its range (two's
complement). -/
def wrapInt (x : ℤ) : ℤ := (x + 2 ^ 31) % 2 ^ 32 - 2 ^ 31

/-- The result `x` of an `int` operation: undefined when it is outside the range
of `int`. -/
def checkedInt (x : ℤ) : Option ℤ :=
  if INT_MIN ≤ x ∧ x ≤ INT_MAX then some x else none

/-- Conversion of an integer to `unsigned int`. -/
def toUInt32 (x : ℤ) : ℕ := (x % 2 ^ 32).toNat

/-- Conversion of an integer to `size_t` (64 bits). -/
def toSizeT (x : ℤ) : ℕ := (x % 2 ^ 64).toNat

/-! ## Memory -/

/-- A pointer to the start of a buffer, given as the number of the allocation.
`0` is the null pointer, which has no elements. -/
abbrev Ptr := ℕ

/-- The contents of every buffer, listed by allocation. -/
abbrev Mem := List (List F32)

/-- The elements of the buffer at `p`. -/
def buf (m : Mem) (p : Ptr) : List F32 := m.getD p []

/-- The read `p[i]`. -/
def load (m : Mem) (p : Ptr) (i : ℤ) : Option F32 :=
  if 0 ≤ i then (buf m p)[i.toNat]? else none

/-- The write `p[i] = v`. -/
def store (m : Mem) (p : Ptr) (i : ℤ) (v : F32) : Option Mem :=
  if 0 ≤ i ∧ i.toNat < (buf m p).length then
    some (m.set p ((buf m p).set i.toNat v))
  else none

/-! ## The kernel -/

/-- The value of `int i = blockDim.x * blockIdx.x + threadIdx.x`: the sum is
computed in `unsigned int` and converted to `int`. -/
def workerIndex (blockDim blockIdx threadIdx : ℕ) : ℤ :=
  wrapInt (((blockDim * blockIdx + threadIdx) % 2 ^ 32 : ℕ) : ℤ)

/-- One execution of the body of `vectorAdd`, by the worker `threadIdx` of the
block `blockIdx`. -/
def vectorAdd (A B C : Ptr) (n : ℤ) (blockDim blockIdx threadIdx : ℕ)
    (m : Mem) : Option Mem :=
  let i := workerIndex blockDim blockIdx threadIdx
  if i < n then
    (load m A i).bind fun a =>
    (load m B i).bind fun b =>
    store m C i (F32.add a b)
  else some m

/-- The workers `(blockIdx, threadIdx)` of a grid, block after block. -/
def gridWorkers (gridDim blockDim : ℕ) : List (ℕ × ℕ) :=
  (List.range gridDim).flatMap fun b => (List.range blockDim).map fun t => (b, t)

/-- Execution of the kernel body by the given workers, one after the other. -/
def runWorkers (A B C : Ptr) (n : ℤ) (blockDim : ℕ) :
    List (ℕ × ℕ) → Mem → Option Mem
  | [], m => some m
  | w :: ws, m =>
    (vectorAdd A B C n blockDim w.1 w.2 m).bind (runWorkers A B C n blockDim ws)

/-- The call `hipLaunchKernelGGL(vectorAdd, dim3(gridDim), dim3(blockDim), 0, 0,
A, B, C, n)`. -/
def hipLaunchKernelGGL (gridDim blockDim : ℕ) (A B C : Ptr) (n : ℤ)
    (m : Mem) : Option Mem :=
  runWorkers A B C n blockDim (gridWorkers gridDim blockDim) m

/-- The value of `(N + threadsPerBlock - 1) / threadsPerBlock` in `int`
arithmetic, evaluated as `((N + threadsPerBlock) - 1) / threadsPerBlock`: the
sum, the difference and the quotient (which truncates) are undefined when they
overflow, and so is a division by zero. -/
def blocksPerGrid (N threadsPerBlock : ℤ) : Option ℤ :=
  (checkedInt (N + threadsPerBlock)).bind fun s =>
  (checkedInt (s - 1)).bind fun t =>
  if threadsPerBlock = 0 then none
  else checkedInt (Int.tdiv t threadsPerBlock)

/-- The launch of `main`, lines 64 to 66, for a vector of `n` elements. -/
def launchVectorAdd (A B C : Ptr) (n : ℤ) (m : Mem) : Option Mem :=
  let threadsPerBlock : ℤ := 256
  (blocksPerGrid n threadsPerBlock).bind fun g =>
    hipLaunchKernelGGL (toUInt32 g) (toUInt32 threadsPerBlock) A B C n m

/-! ## Effects -/

/-- An argument of a `printf` call. -/
inductive Arg where
  | ptr (p : Ptr)
  | size (n : ℕ)
  | int (i : ℤ)
  | float (x : F32)
  | str (s : String)
deriving DecidableEq

/-- Direction of a `hipMemcpy`. -/
inductive CopyKind where
  | hipMemcpyHostToDevice
  | hipMemcpyDeviceToHost
deriving DecidableEq

/-- A call that acts outside the memory of the program. -/
inductive Effect where
  | printf (format : String) (args : List Arg)
  | hipHostMalloc (p : Ptr) (size : ℤ)
  | hipMalloc (p : Ptr) (size : ℤ)
  | hipMemcpy (dst src : Ptr) (size : ℤ) (kind : CopyKind)
  | launch (gridDim blockDim : ℕ) (A B C : Ptr) (n : ℤ)
  | close (fd : ℤ)
  | hipFree (p : Ptr)
  | hipHostFree (p : Ptr)
deriving DecidableEq

/-- The function `export_dmabuf`: the effects it performs and the value it
returns. -/
def export_dmabuf (ptr : Ptr) (size : ℕ) : List Effect × ℤ :=
  ([Effect.printf "Simulating export of dmabuf for memory at %p of size %zu bytes.\n"
      [Arg.ptr ptr, Arg.size size]],
   42)

/-! ## The program -/

/-- The macro `N`. -/
def N : ℤ := 1024

/-- The value of `sizeof(float)`. -/
def sizeofFloat : ℕ := 4

/-- What the run cannot determine: the contents of freshly allocated memory and
the text of `strerror(errno)`. -/
structure Env where
  junk : Ptr → ℕ → F32
  errnoText : String

/-- The buffers of `main`; the six allocations return distinct non-null
pointers. -/
def h_A : Ptr := 1
/-- Second host input buffer. -/
def h_B : Ptr := 2
/-- Host output buffer. -/
def h_C : Ptr := 3
/-- First device input buffer. -/
def d_A : Ptr := 4
/-- Second device input buffer. -/
def d_B : Ptr := 5
/-- Device output buffer. -/
def d_C : Ptr := 6

/-- A successful allocation of `size` bytes at `p`: room for
`size / sizeof(float)` elements, of unspecified contents. -/
def allocate (env : Env) (m : Mem) (p : Ptr) (size : ℤ) : Mem :=
  m.set p ((List.range (toSizeT size / sizeofFloat)).map (env.junk p))

/-- A successful `hipMemcpy(dst, src, size, kind)` between two buffers. -/
def memcpy (m : Mem) (dst src : Ptr) (size : ℤ) : Option Mem :=
  let k := toSizeT size / sizeofFloat
  if k ≤ (buf m src).length ∧ k ≤ (buf m dst).length then
    some (m.set dst ((buf m src).take k ++ (buf m dst).drop k))
  else none

/-- The loop `for (...; i < n; i++) { A[i] = (float)i; B[i] = (float)i; }` of
lines 41 to 44, from the value `i` of the loop variable on.  The last argument
bounds the number of times the guard is evaluated; `none` also stands for a run
that exceeds it. -/
def initLoop (A B : Ptr) (n : ℤ) (i : ℤ) : ℕ → Mem → Option Mem
  | 0, _ => none
  | fuel + 1, m =>
    if i < n then
      (store m A i (F32.ofInt i)).bind fun m1 =>
      (store m1 B i (F32.ofInt i)).bind fun m2 =>
      (checkedInt (i + 1)).bind fun i1 =>
      initLoop A B n i1 fuel m2
    else some m

/-- The test `fabs(c - (a + b)) > 1e-5` of line 73. -/
def mismatch (c a b : F32) : Bool :=
  F32.gt (F32.fabs (F32.sub c (F32.add a b))) tolerance

/-- Whether the test of line 73 holds at index `i` for the buffers `A`, `B`,
`C`. -/
def mismatchAt (A B C : Ptr) (m : Mem) (i : ℤ) : Bool :=
  match load m C i, load m A i, load m B i with
  | some c, some a, some b => mismatch c a b
  | _, _, _ => false

/-- Result of the validation scan: the indices at which the loop body ran, in
the order it ran (a record kept for the proofs, not program state), and the
lines the scan printed. -/
structure Scan where
  examined : List ℤ
  out : List Effect
deriving DecidableEq

/-- The loop `for (...; i < n; i++) { if (...) { printf(...); break; } }` of
lines 72 to 77, from the value `i` of the loop variable on.  The last argument
bounds the number of times the guard is evaluated; `none` also stands for a run
that exceeds it. -/
def scanLoop (A B C : Ptr) (m : Mem) (n : ℤ) (i : ℤ) : ℕ → Option Scan
  | 0 => none
  | fuel + 1 =>
    if i < n then
      (load m C i).bind fun c =>
      (load m A i).bind fun a =>
      (load m B i).bind fun b =>
      if mismatch c a b then
        some ⟨[i], [Effect.printf "Error at index %d: %f != %f\n"
          [Arg.int i, Arg.float c, Arg.float (F32.add a b)]]⟩
      else
        (checkedInt (i + 1)).bind fun i1 =>
        (scanLoop A B C m n i1 fuel).map fun r => ⟨i :: r.examined, r.out⟩
    else some ⟨[], []⟩

/-- The validation scan of `main`, lines 72 to 77: the guard is evaluated at
most `N + 1` times. -/
def validate (m : Mem) : Option Scan := scanLoop h_A h_B h_C m N 0 (N.toNat + 1)

/-- Lines 78 to 90 of `main`: what follows the validation scan up to the
`return`. -/
def finish (dmabuf_fd : ℤ) : List Effect :=
  [Effect.printf "Vector addition completed successfully!\n" []]
    ++ (if dmabuf_fd ≥ 0 then [Effect.close dmabuf_fd] else [])
    ++ [Effect.hipFree d_A, Effect.hipFree d_B, Effect.hipFree d_C,
        Effect.hipHostFree h_A, Effect.hipHostFree h_B, Effect.hipHostFree h_C]

/-- Outcome of a run of `main`: its effects in order and its exit status. -/
structure Run where
  effects : List Effect
  status : ℤ
deriving DecidableEq

/-- Lines 71 to 92 of `main`, from the memory `m` left by the device-to-host
copy and the handle `dmabuf_fd` returned by the export. -/
def mainAfterCopy (m : Mem) (dmabuf_fd : ℤ) : Option Run :=
  (validate m).map fun r => ⟨r.out ++ finish dmabuf_fd, 0⟩

/-- State of `main` after line 69. -/
structure Copied where
  mem : Mem
  effects : List Effect
  dmabuf_fd : ℤ

/-- Lines 30 to 69 of `main`, every allocation and copy succeeding. -/
def mainToCopy (env : Env) : Option Copied :=
  let size : ℤ := wrapInt (N * sizeofFloat)
  -- the null pointer and the six buffers to allocate
  let m0 : Mem := List.replicate 7 []
  let m1 := allocate env m0 h_A size
  let m2 := allocate env m1 h_B size
  let m3 := allocate env m2 h_C size
  let e1 := [Effect.hipHostMalloc h_A size, Effect.hipHostMalloc h_B size,
    Effect.hipHostMalloc h_C size]
  (initLoop h_A h_B N 0 (N.toNat + 1) m3).bind fun m4 =>
  let ex := export_dmabuf h_C (toSizeT size)
  let dmabuf_fd := ex.2
  let e2 := ex.1 ++
    (if dmabuf_fd ≥ 0 then [Effect.printf "Exported dma-buf with fd: %d\n" [Arg.int dmabuf_fd]]
     else [Effect.printf "Failed to export dma-buf: %s\n" [Arg.str env.errnoText]])
  let m5 := allocate env m4 d_A size
  let m6 := allocate env m5 d_B size
  let m7 := allocate env m6 d_C size
  let e3 := [Effect.hipMalloc d_A size, Effect.hipMalloc d_B size, Effect.hipMalloc d_C size]
  (memcpy m7 d_A h_A size).bind fun m8 =>
  (memcpy m8 d_B h_B size).bind fun m9 =>
  let e4 := [Effect.hipMemcpy d_A h_A size CopyKind.hipMemcpyHostToDevice,
    Effect.hipMemcpy d_B h_B size CopyKind.hipMemcpyHostToDevice]
  let threadsPerBlock : ℤ := 256
  (blocksPerGrid N threadsPerBlock).bind fun blocks =>
  (hipLaunchKernelGGL (toUInt32 blocks) (toUInt32 threadsPerBlock) d_A d_B d_C N m9).bind
    fun m10 =>
  let e5 := [Effect.launch (toUInt32 blocks) (toUInt32 threadsPerBlock) d_A d_B d_C N]
  (memcpy m10 h_C d_C size).bind fun m11 =>
  let e6 := [Effect.hipMemcpy h_C d_C size CopyKind.hipMemcpyDeviceToHost]
  some ⟨m11, e1 ++ e2 ++ e3 ++ e4 ++ e5 ++ e6, dmabuf_fd⟩

/-- The effects of lines 30 to 69 of `main`, in program order. -/
def effectsToCopy : List Effect :=
  [Effect.hipHostMalloc h_A 4096, Effect.hipHostMalloc h_B 4096, Effect.hipHostMalloc h_C 4096,
    Effect.printf "Simulating export of dmabuf for memory at %p of size %zu bytes.\n"
      [Arg.ptr h_C, Arg.size 4096],
    Effect.printf "Exported dma-buf with fd: %d\n" [Arg.int 42],
    Effect.hipMalloc d_A 4096, Effect.hipMalloc d_B 4096, Effect.hipMalloc d_C 4096,
    Effect.hipMemcpy d_A h_A 4096 CopyKind.hipMemcpyHostToDevice,
    Effect.hipMemcpy d_B h_B 4096 CopyKind.hipMemcpyHostToDevice,
    Effect.launch 4 256 d_A d_B d_C 1024,
    Effect.hipMemcpy h_C d_C 4096 CopyKind.hipMemcpyDeviceToHost]

/-- The line of line 78. -/
def successLine : Effect := Effect.printf "Vector addition completed successfully!\n" []

/-- A memory for examples: the three host buffers of `main` after line 69 with
`h_A[j] = h_B[j] = 0.0` and `h_C[j] = c` for every `j`. -/
def sampleHost (c : F32) : Mem :=
  [[], List.replicate 1024 (F32.fin 0), List.replicate 1024 (F32.fin 0), List.replicate 1024 c]

/-- The function `main`, every allocation and copy succeeding. -/
def main (env : Env) : Option Run :=
  (mainToCopy env).bind fun s =>
    (mainAfterCopy s.mem s.dmabuf_fd).map fun r => ⟨s.effects ++ r.effects, r.status⟩


/-! ## Lemmas on memory -/

theorem buf_set_same {m : Mem} {p : Ptr} (l : List F32) (h : p < m.length) :
    buf (m.set p l) p = l := by
  simp [buf, List.getD_eq_getElem?_getD, h]

theorem buf_set_ne {m : Mem} {p q : Ptr} (l : List F32) (h : p ≠ q) :
    buf (m.set p l) q = buf m q := by
  simp [buf, List.getD_eq_getElem?_getD, List.getElem?_set, h]

theorem lt_length_of_buf {m : Mem} {p : Ptr} {k : ℕ} (h : k < (buf m p).length) :
    p < m.length := by
  by_contra hp
  have : buf m p = [] := by
    simp [buf, List.getD_eq_getElem?_getD, List.getElem?_eq_none (not_lt.mp hp)]
  simp [this] at h

theorem load_eq_some_iff {m : Mem} {p : Ptr} {i : ℤ} {v : F32} :
    load m p i = some v ↔ 0 ≤ i ∧ (buf m p)[i.toNat]? = some v := by
  unfold load
  split_ifs with h <;> simp [h]

theorem load_isSome {m : Mem} {p : Ptr} {i : ℤ} (h0 : 0 ≤ i)
    (h : i.toNat < (buf m p).length) : load m p i = some ((buf m p)[i.toNat]) := by
  simp [load, h0, List.getElem?_eq_getElem h]

theorem load_lt {m : Mem} {p : Ptr} {i : ℤ} {v : F32} (h : load m p i = some v) :
    0 ≤ i ∧ i.toNat < (buf m p).length := by
  rw [load_eq_some_iff] at h
  refine ⟨h.1, ?_⟩
  by_contra hc
  rw [List.getElem?_eq_none (not_lt.mp hc)] at h
  simp at h

/-! ## Lemmas on the kernel -/

theorem vectorAdd_eq (A B C : Ptr) (n : ℤ) (bd b t : ℕ) (m : Mem) :
    vectorAdd A B C n bd b t m =
      if workerIndex bd b t < n then
        if 0 ≤ workerIndex bd b t ∧ (workerIndex bd b t).toNat < (buf m A).length ∧
            (workerIndex bd b t).toNat < (buf m B).length ∧
            (workerIndex bd b t).toNat < (buf m C).length then
          some (m.set C ((buf m C).set (workerIndex bd b t).toNat
            (F32.add ((buf m A).getD (workerIndex bd b t).toNat F32.nan)
              ((buf m B).getD (workerIndex bd b t).toNat F32.nan))))
        else none
      else some m := by
  unfold vectorAdd
  generalize workerIndex bd b t = i
  by_cases hin : i < n
  · simp only [hin, if_true]
    by_cases h0 : 0 ≤ i
    · by_cases hA : i.toNat < (buf m A).length
      · by_cases hB : i.toNat < (buf m B).length
        · by_cases hC : i.toNat < (buf m C).length
          · simp [load, store, h0, hA, hB, hC, List.getElem?_eq_getElem,
              List.getD_eq_getElem?_getD]
          · simp [load, store, h0, hA, hB, hC, List.getElem?_eq_getElem]
        · simp [load, h0, hA, hB, List.getElem?_eq_getElem,
            List.getElem?_eq_none (not_lt.mp hB)]
      · simp [load, h0, hA, List.getElem?_eq_none (not_lt.mp hA)]
    · simp [load, h0]
  · simp [hin]

theorem vectorAdd_inactive (A B C : Ptr) {n : ℤ} {bd b t : ℕ}
    (h : ¬ workerIndex bd b t < n) : vectorAdd A B C n bd b t = some := by
  funext m
  rw [vectorAdd_eq, if_neg h]

theorem vectorAdd_comm {A B C : Ptr} (hCA : C ≠ A) (hCB : C ≠ B) (n : ℤ) (bd : ℕ)
    (w1 w2 : ℕ × ℕ) (m : Mem) :
    (vectorAdd A B C n bd w1.1 w1.2 m).bind (vectorAdd A B C n bd w2.1 w2.2) =
      (vectorAdd A B C n bd w2.1 w2.2 m).bind (vectorAdd A B C n bd w1.1 w1.2) := by
  by_cases hi : workerIndex bd w1.1 w1.2 < n; swap
  · rw [vectorAdd_inactive A B C hi, Option.some_bind, Option.bind_some]
  by_cases hj : workerIndex bd w2.1 w2.2 < n; swap
  · rw [vectorAdd_inactive A B C hj, Option.some_bind, Option.bind_some]
  simp only [vectorAdd_eq]
  revert hi hj
  generalize workerIndex bd w1.1 w1.2 = i
  generalize workerIndex bd w2.1 w2.2 = j
  intro hi hj
  rw [if_pos hi, if_pos hj]
  simp only [if_pos hi, if_pos hj]
  by_cases oki : 0 ≤ i ∧ i.toNat < (buf m A).length ∧ i.toNat < (buf m B).length ∧
      i.toNat < (buf m C).length
  · have hC : C < m.length := lt_length_of_buf oki.2.2.2
    by_cases okj : 0 ≤ j ∧ j.toNat < (buf m A).length ∧ j.toNat < (buf m B).length ∧
        j.toNat < (buf m C).length
    · rw [if_pos oki, if_pos okj, Option.some_bind, Option.some_bind]
      simp only [buf_set_ne _ hCA, buf_set_ne _ hCB, buf_set_same _ hC, List.length_set,
        if_pos oki, if_pos okj, List.set_set]
      by_cases hij : i.toNat = j.toNat
      · rw [hij]
      · rw [List.set_comm _ _ _ hij]
    · rw [if_pos oki, if_neg okj, Option.some_bind, Option.none_bind]
      simp only [buf_set_ne _ hCA, buf_set_ne _ hCB, buf_set_same _ hC, List.length_set,
        if_neg okj]
  · by_cases okj : 0 ≤ j ∧ j.toNat < (buf m A).length ∧ j.toNat < (buf m B).length ∧
        j.toNat < (buf m C).length
    · have hC : C < m.length := lt_length_of_buf okj.2.2.2
      rw [if_neg oki, if_pos okj, Option.some_bind, Option.none_bind]
      simp only [buf_set_ne _ hCA, buf_set_ne _ hCB, buf_set_same _ hC, List.length_set,
        if_neg oki]
    · simp only [if_neg oki, if_neg okj, Option.none_bind]

theorem runWorkers_perm {A B C : Ptr} (hCA : C ≠ A) (hCB : C ≠ B) (n : ℤ) (bd : ℕ)
    {ws ws' : List (ℕ × ℕ)} (h : ws.Perm ws') (m : Mem) :
    runWorkers A B C n bd ws m = runWorkers A B C n bd ws' m := by
  induction h generalizing m with
  | nil => rfl
  | cons w _ ih =>
    simp only [runWorkers]
    cases vectorAdd A B C n bd w.1 w.2 m with
    | none => rfl
    | some m1 => simpa using ih m1
  | swap w1 w2 l =>
    simp only [runWorkers]
    rw [← Option.bind_assoc, ← Option.bind_assoc, vectorAdd_comm hCA hCB]
  | trans _ _ ih1 ih2 => rw [ih1, ih2]

theorem mem_gridWorkers {g bd : ℕ} {w : ℕ × ℕ} :
    w ∈ gridWorkers g bd ↔ w.1 < g ∧ w.2 < bd := by
  obtain ⟨b, t⟩ := w
  simp only [gridWorkers, List.mem_flatMap, List.mem_range, List.mem_map, Prod.mk.injEq]
  constructor
  · rintro ⟨b', hb, t', ht, rfl, rfl⟩
    exact ⟨hb, ht⟩
  · rintro ⟨hb, ht⟩
    exact ⟨b, hb, t, ht, rfl, rfl⟩

theorem workerIndex_eq {bd b t : ℕ} (h : bd * b + t < 2 ^ 31) :
    workerIndex bd b t = ((bd * b + t : ℕ) : ℤ) := by
  unfold workerIndex wrapInt
  have h1 : (bd * b + t) % 2 ^ 32 = bd * b + t := Nat.mod_eq_of_lt (by omega)
  rw [h1]
  omega

/-- Effect of running a list of workers whose guarded accesses stay inside the
buffers, the output buffer being distinct from the inputs. -/
theorem runWorkers_spec {A B C : Ptr} (hCA : C ≠ A) (hCB : C ≠ B) (n : ℤ) (bd : ℕ) :
    ∀ (ws : List (ℕ × ℕ)) (m : Mem),
      (∀ w ∈ ws, workerIndex bd w.1 w.2 < n →
        0 ≤ workerIndex bd w.1 w.2 ∧
        (workerIndex bd w.1 w.2).toNat < (buf m A).length ∧
        (workerIndex bd w.1 w.2).toNat < (buf m B).length ∧
        (workerIndex bd w.1 w.2).toNat < (buf m C).length) →
      ∃ m', runWorkers A B C n bd ws m = some m' ∧
        (∀ p, p ≠ C → buf m' p = buf m p) ∧
        (buf m' C).length = (buf m C).length ∧
        (∀ j : ℕ, (∃ w ∈ ws, workerIndex bd w.1 w.2 < n ∧ (workerIndex bd w.1 w.2).toNat = j) →
          (buf m' C)[j]? = some (F32.add ((buf m A).getD j F32.nan) ((buf m B).getD j F32.nan))) ∧
        (∀ j : ℕ, (¬ ∃ w ∈ ws, workerIndex bd w.1 w.2 < n ∧ (workerIndex bd w.1 w.2).toNat = j) →
          (buf m' C)[j]? = (buf m C)[j]?) := by
  intro ws
  induction ws with
  | nil =>
    intro m _
    exact ⟨m, rfl, fun _ _ => rfl, rfl, fun j h => by simp at h, fun _ _ => rfl⟩
  | cons w ws ih =>
    intro m hok
    by_cases hw : workerIndex bd w.1 w.2 < n
    · obtain ⟨h0, hA, hB, hC⟩ := hok w (List.mem_cons_self _ _) hw
      have hCm : C < m.length := lt_length_of_buf hC
      have hstep := vectorAdd_eq A B C n bd w.1 w.2 m
      rw [if_pos hw, if_pos ⟨h0, hA, hB, hC⟩] at hstep
      revert hstep
      generalize hm1 : (m.set C ((buf m C).set (workerIndex bd w.1 w.2).toNat
        (F32.add ((buf m A).getD (workerIndex bd w.1 w.2).toNat F32.nan)
          ((buf m B).getD (workerIndex bd w.1 w.2).toNat F32.nan)))) = m1
      intro hstep
      have e1 : ∀ p, p ≠ C → buf m1 p = buf m p := by
        intro p hp
        rw [← hm1, buf_set_ne _ (Ne.symm hp)]
      have eC : buf m1 C = (buf m C).set (workerIndex bd w.1 w.2).toNat
          (F32.add ((buf m A).getD (workerIndex bd w.1 w.2).toNat F32.nan)
            ((buf m B).getD (workerIndex bd w.1 w.2).toNat F32.nan)) := by
        rw [← hm1, buf_set_same _ hCm]
      have eA := e1 A (Ne.symm hCA)
      have eB := e1 B (Ne.symm hCB)
      have eL : (buf m1 C).length = (buf m C).length := by rw [eC, List.length_set]
      obtain ⟨m', hrun, hp, hlen, hin, hout⟩ := ih m1 (by
        intro w' hw' hact
        have := hok w' (List.mem_cons_of_mem _ hw') hact
        rw [eA, eB, eL]
        exact this)
      refine ⟨m', ?_, ?_, ?_, ?_, ?_⟩
      · simp only [runWorkers, hstep, Option.some_bind, hrun]
      · intro p hpC
        rw [hp p hpC, e1 p hpC]
      · rw [hlen, eL]
      · intro j hj
        by_cases hjws : ∃ w' ∈ ws, workerIndex bd w'.1 w'.2 < n ∧
            (workerIndex bd w'.1 w'.2).toNat = j
        · rw [hin j hjws, eA, eB]
        · rw [hout j hjws, eC]
          obtain ⟨w', hw'mem, hw'act, hw'j⟩ := hj
          rcases List.mem_cons.mp hw'mem with rfl | hmem
          · rw [← hw'j, List.getElem?_set, if_pos rfl, if_pos hC]
          · exact absurd ⟨w', hmem, hw'act, hw'j⟩ hjws
      · intro j hj
        have hjws : ¬ ∃ w' ∈ ws, workerIndex bd w'.1 w'.2 < n ∧
            (workerIndex bd w'.1 w'.2).toNat = j := by
          rintro ⟨w', hmem, hact, hwj⟩
          exact hj ⟨w', List.mem_cons_of_mem _ hmem, hact, hwj⟩
        have hne : (workerIndex bd w.1 w.2).toNat ≠ j := by
          intro heq
          exact hj ⟨w, List.mem_cons_self _ _, hw, heq⟩
        rw [hout j hjws, eC, List.getElem?_set, if_neg hne]
    · obtain ⟨m', hrun, hp, hlen, hin, hout⟩ := ih m (by
        intro w' hw' hact
        exact hok w' (List.mem_cons_of_mem _ hw') hact)
      refine ⟨m', ?_, hp, hlen, ?_, ?_⟩
      · simp only [runWorkers, vectorAdd_inactive A B C hw, Option.some_bind, hrun]
      · rintro j ⟨w', hw'mem, hw'act, hw'j⟩
        rcases List.mem_cons.mp hw'mem with rfl | hmem
        · exact absurd hw'act hw
        · exact hin j ⟨w', hmem, hw'act, hw'j⟩
      · intro j hj
        exact hout j (by
          rintro ⟨w', hmem, hact, hwj⟩
          exact hj ⟨w', List.mem_cons_of_mem _ hmem, hact, hwj⟩)

theorem checkedInt_of_range {x : ℤ} (h0 : -2 ^ 31 ≤ x) (h1 : x < 2 ^ 31) :
    checkedInt x = some x := by
  unfold checkedInt INT_MIN INT_MAX
  rw [if_pos ⟨by omega, by omega⟩]

theorem blocksPerGrid_eq {n : ℤ} (h0 : 0 ≤ n) (h1 : n ≤ INT_MAX - 256) :
    blocksPerGrid n 256 = some ((n + 255) / 256) := by
  unfold INT_MAX at h1
  have e1 : checkedInt (n + 256) = some (n + 256) := checkedInt_of_range (by omega) (by omega)
  have e2 : checkedInt (n + 256 - 1) = some (n + 255) := by
    have h : n + 256 - 1 = n + 255 := by omega
    rw [h]
    exact checkedInt_of_range (by omega) (by omega)
  have e3 : Int.tdiv (n + 255) 256 = (n + 255) / 256 :=
    Int.tdiv_eq_ediv (by omega) (by norm_num)
  have e4 : checkedInt ((n + 255) / 256) = some ((n + 255) / 256) :=
    checkedInt_of_range (by omega) (by omega)
  simp only [blocksPerGrid, e1, Option.some_bind, e2, e3, e4]
  norm_num

theorem ceil_div_256 (n : ℤ) : ⌈(n : ℚ) / 256⌉ = (n + 255) / 256 := by
  have h : (n : ℚ) / 256 = -(((-n : ℤ) : ℚ) / ((256 : ℕ) : ℚ)) := by
    push_cast
    ring
  rw [h, Int.ceil_neg, Rat.floor_intCast_div_natCast]
  push_cast
  omega

theorem toUInt32_of_range {x : ℤ} (h0 : 0 ≤ x) (h1 : x < 2 ^ 32) : toUInt32 x = x.toNat := by
  unfold toUInt32
  rw [Int.emod_eq_of_lt h0 h1]

theorem toUInt32_256 : toUInt32 256 = 256 := by
  decide

theorem grid_index {n : ℤ} (h0 : 0 ≤ n) (h1 : n ≤ INT_MAX - 255) {w : ℕ × ℕ}
    (hw : w ∈ gridWorkers ((n + 255) / 256).toNat 256) :
    workerIndex 256 w.1 w.2 = ((256 * w.1 + w.2 : ℕ) : ℤ) := by
  unfold INT_MAX at h1
  rw [mem_gridWorkers] at hw
  apply workerIndex_eq
  omega

theorem grid_covers {n : ℤ} {j : ℕ} (hj : (j : ℤ) < n) :
    (j / 256, j % 256) ∈ gridWorkers ((n + 255) / 256).toNat 256 := by
  rw [mem_gridWorkers]
  constructor
  · show j / 256 < ((n + 255) / 256).toNat
    omega
  · exact Nat.mod_lt _ (by norm_num)

/-- The launch of `(n + 255) / 256` blocks of 256 threads on buffers of at least
`n` elements, the output distinct from the inputs; it is the launch of `main`
when `n ≤ INT_MAX - 256`. -/
theorem launchVectorAdd_spec (n : ℤ) (A B C : Ptr) (m : Mem)
    (hn0 : 0 ≤ n) (hn : n ≤ INT_MAX - 255)
    (hA : n ≤ (buf m A).length) (hB : n ≤ (buf m B).length) (hC : n ≤ (buf m C).length)
    (hCA : C ≠ A) (hCB : C ≠ B) :
    ∃ m', hipLaunchKernelGGL ((n + 255) / 256).toNat 256 A B C n m = some m' ∧
      (∀ ws, ws.Perm (gridWorkers ((n + 255) / 256).toNat 256) →
        runWorkers A B C n 256 ws m = some m') ∧
      (n ≤ INT_MAX - 256 → launchVectorAdd A B C n m = some m') ∧
      (∀ i : ℤ, 0 ≤ i → i < n →
        ∃ a b, load m A i = some a ∧ load m B i = some b ∧
          load m' C i = some (F32.add a b)) ∧
      (∀ i : ℤ, n ≤ i → load m' C i = load m C i) ∧
      (buf m' C).length = (buf m C).length ∧
      (∀ p, p ≠ C → buf m' p = buf m p) := by
  have hn' : n ≤ 2147483392 := by unfold INT_MAX at hn; omega
  have hok : ∀ w ∈ gridWorkers ((n + 255) / 256).toNat 256, workerIndex 256 w.1 w.2 < n →
      0 ≤ workerIndex 256 w.1 w.2 ∧
      (workerIndex 256 w.1 w.2).toNat < (buf m A).length ∧
      (workerIndex 256 w.1 w.2).toNat < (buf m B).length ∧
      (workerIndex 256 w.1 w.2).toNat < (buf m C).length := by
    intro w hw hact
    rw [grid_index hn0 hn hw] at hact ⊢
    omega
  obtain ⟨m', hrun, hp, hlen, hin, hout⟩ :=
    runWorkers_spec hCA hCB n 256 (gridWorkers ((n + 255) / 256).toNat 256) m hok
  refine ⟨m', ?_, ?_, ?_, ?_, ?_, hlen, hp⟩
  · simp only [hipLaunchKernelGGL]
    exact hrun
  · intro ws hperm
    rw [runWorkers_perm hCA hCB n 256 hperm, hrun]
  · intro h256
    have hg := blocksPerGrid_eq hn0 h256
    have hu : toUInt32 ((n + 255) / 256) = ((n + 255) / 256).toNat :=
      toUInt32_of_range (by omega) (by omega)
    simp only [launchVectorAdd, hg, Option.some_bind, hipLaunchKernelGGL, hu, toUInt32_256]
    exact hrun
  · intro i hi0 hin'
    have hiA : i.toNat < (buf m A).length := by omega
    have hiB : i.toNat < (buf m B).length := by omega
    refine ⟨_, _, load_isSome hi0 hiA, load_isSome hi0 hiB, ?_⟩
    have hcov : (i.toNat / 256, i.toNat % 256) ∈ gridWorkers ((n + 255) / 256).toNat 256 :=
      grid_covers (by omega)
    have hidx : workerIndex 256 (i.toNat / 256) (i.toNat % 256) = (i.toNat : ℤ) := by
      rw [grid_index hn0 hn hcov, Nat.div_add_mod]
    have hex : ∃ w ∈ gridWorkers ((n + 255) / 256).toNat 256,
        workerIndex 256 w.1 w.2 < n ∧ (workerIndex 256 w.1 w.2).toNat = i.toNat := by
      refine ⟨(i.toNat / 256, i.toNat % 256), hcov, ?_, ?_⟩
      · show workerIndex 256 (i.toNat / 256) (i.toNat % 256) < n
        rw [hidx]
        omega
      · show (workerIndex 256 (i.toNat / 256) (i.toNat % 256)).toNat = i.toNat
        rw [hidx]
        exact Int.toNat_ofNat _
    have hres := hin i.toNat hex
    simp only [List.getD_eq_getElem?_getD, List.getElem?_eq_getElem hiA,
      List.getElem?_eq_getElem hiB, Option.getD_some] at hres
    unfold load
    rw [if_pos hi0]
    exact hres
  · intro i hi
    have hi0 : 0 ≤ i := le_trans hn0 hi
    simp only [load, hi0, if_true]
    apply hout
    rintro ⟨w, hw, hact, hj⟩
    rw [grid_index hn0 hn hw] at hact hj
    omega

/-- C1: for `0 ≤ n ≤ INT_MAX - 255`, input buffers `A`, `B` and an output buffer
`C` of at least `n` elements, `C` distinct from `A` and `B`, running `vectorAdd`
once for every worker of the grid of `(n + 255) / 256` blocks of 256 threads
returns, whatever the order in which the workers run; afterwards `C[i]` is the
`float` sum `A[i] + B[i]` for every `i` in `[0, n)`, every element of `C` at an
index `≥ n` is as it was, the length of `C` is as it was and so is every other
buffer.  For `n ≤ INT_MAX - 256` lines 64 to 66 of `main` compute this grid and
their launch has this result. -/
theorem vectorAdd_launch_correct (n : ℤ) (A B C : Ptr) (m : Mem)
    (hn0 : 0 ≤ n) (hn : n ≤ INT_MAX - 255)
    (hA : n ≤ (buf m A).length) (hB : n ≤ (buf m B).length) (hC : n ≤ (buf m C).length)
    (hCA : C ≠ A) (hCB : C ≠ B) :
    ∃ m', hipLaunchKernelGGL ((n + 255) / 256).toNat 256 A B C n m = some m' ∧
      (∀ ws, ws.Perm (gridWorkers ((n + 255) / 256).toNat 256) →
        runWorkers A B C n 256 ws m = some m') ∧
      (n ≤ INT_MAX - 256 → launchVectorAdd A B C n m = some m') ∧
      (∀ i : ℤ, 0 ≤ i → i < n →
        ∃ a b, load m A i = some a ∧ load m B i = some b ∧
          load m' C i = some (F32.add a b)) ∧
      (∀ i : ℤ, n ≤ i → load m' C i = load m C i) ∧
      (buf m' C).length = (buf m C).length ∧
      (∀ p, p ≠ C → buf m' p = buf m p) :=
  launchVectorAdd_spec n A B C m hn0 hn hA hB hC hCA hCB

theorem vectorAdd_launch_correct_witness :
    ∃ m', hipLaunchKernelGGL (((2 : ℤ) + 255) / 256).toNat 256 1 2 3 2
        [[], [F32.fin 1, F32.fin 2], [F32.fin 3, F32.fin 4], [F32.nan, F32.nan, F32.inf true]]
        = some m' ∧
      (∀ ws, ws.Perm (gridWorkers (((2 : ℤ) + 255) / 256).toNat 256) →
        runWorkers 1 2 3 2 256 ws
          [[], [F32.fin 1, F32.fin 2], [F32.fin 3, F32.fin 4], [F32.nan, F32.nan, F32.inf true]]
          = some m') ∧
      ((2 : ℤ) ≤ INT_MAX - 256 → launchVectorAdd 1 2 3 2
        [[], [F32.fin 1, F32.fin 2], [F32.fin 3, F32.fin 4], [F32.nan, F32.nan, F32.inf true]]
        = some m') ∧
      (∀ i : ℤ, 0 ≤ i → i < 2 →
        ∃ a b,
          load [[], [F32.fin 1, F32.fin 2], [F32.fin 3, F32.fin 4],
            [F32.nan, F32.nan, F32.inf true]] 1 i = some a ∧
          load [[], [F32.fin 1, F32.fin 2], [F32.fin 3, F32.fin 4],
            [F32.nan, F32.nan, F32.inf true]] 2 i = some b ∧
          load m' 3 i = some (F32.add a b)) ∧
      (∀ i : ℤ, 2 ≤ i → load m' 3 i =
        load [[], [F32.fin 1, F32.fin 2], [F32.fin 3, F32.fin 4],
          [F32.nan, F32.nan, F32.inf true]] 3 i) ∧
      (buf m' 3).length =
        (buf [[], [F32.fin 1, F32.fin 2], [F32.fin 3, F32.fin 4],
          [F32.nan, F32.nan, F32.inf true]] 3).length ∧
      (∀ p, p ≠ 3 → buf m' p =
        buf [[], [F32.fin 1, F32.fin 2], [F32.fin 3, F32.fin 4],
          [F32.nan, F32.nan, F32.inf true]] p) :=
  vectorAdd_launch_correct 2 1 2 3
    [[], [F32.fin 1, F32.fin 2], [F32.fin 3, F32.fin 4], [F32.nan, F32.nan, F32.inf true]]
    (by decide) (by decide) (by decide) (by decide) (by decide) (by decide) (by decide)

/-! ## Lemmas on rounding -/

theorem roundHalfEven_intCast (z : ℤ) : roundHalfEven (z : ℚ) = z := by
  unfold roundHalfEven
  simp

theorem round_natCast {k : ℕ} (hk : k < 2 ^ 24) : F32.round (k : ℚ) = F32.fin (k : ℚ) := by
  unfold F32.round
  by_cases h0 : (k : ℚ) = 0
  · rw [if_pos h0, h0]
  · rw [if_neg h0]
    have hk0 : k ≠ 0 := by
      intro h
      exact h0 (by rw [h]; simp)
    have habs : |(k : ℚ)| = (k : ℚ) := abs_of_nonneg (Nat.cast_nonneg k)
    have hlog : Nat.log 2 k < 24 := Nat.log_lt_of_lt_pow hk0 hk
    have he : max (Int.log 2 (k : ℚ)) (-126) = (Nat.log 2 k : ℤ) := by
      rw [Int.log_natCast]
      omega
    have hpow : (2 : ℚ) ^ ((Nat.log 2 k : ℤ) - 23) = ((2 : ℚ) ^ (23 - Nat.log 2 k))⁻¹ := by
      have : ((Nat.log 2 k : ℤ) - 23) = -((23 - Nat.log 2 k : ℕ) : ℤ) := by omega
      rw [this, zpow_neg, zpow_natCast]
    have hp : (2 : ℚ) ^ (23 - Nat.log 2 k) ≠ 0 := pow_ne_zero _ (by norm_num)
    have hscaled : (k : ℚ) / (2 : ℚ) ^ ((Nat.log 2 k : ℤ) - 23) =
        (((k * 2 ^ (23 - Nat.log 2 k) : ℕ) : ℤ) : ℚ) := by
      rw [hpow]
      push_cast
      field_simp
    have hv : ((roundHalfEven ((k : ℚ) / (2 : ℚ) ^ ((Nat.log 2 k : ℤ) - 23)) : ℤ) : ℚ) *
        (2 : ℚ) ^ ((Nat.log 2 k : ℤ) - 23) = (k : ℚ) := by
      rw [hscaled, roundHalfEven_intCast, hpow]
      push_cast
      field_simp
    simp only [habs, he, hv]
    have hlt : ¬ ((2 : ℚ) ^ (128 : ℕ) ≤ (k : ℚ)) := by
      rw [not_le]
      have h1 : (k : ℚ) < (2 : ℚ) ^ (24 : ℕ) := by exact_mod_cast hk
      have h2 : (2 : ℚ) ^ (24 : ℕ) ≤ (2 : ℚ) ^ (128 : ℕ) := by norm_num
      exact lt_of_lt_of_le h1 h2
    rw [if_neg hlt]

theorem add_natCast {a b : ℕ} (h : a + b < 2 ^ 24) :
    F32.add (F32.fin (a : ℚ)) (F32.fin (b : ℚ)) = F32.fin ((a + b : ℕ) : ℚ) := by
  show F32.round ((a : ℚ) + (b : ℚ)) = _
  rw [← Nat.cast_add]
  exact round_natCast h

theorem ofInt_natCast {k : ℕ} (hk : k < 2 ^ 24) : F32.ofInt (k : ℤ) = F32.fin (k : ℚ) := by
  unfold F32.ofInt
  rw [Int.cast_natCast]
  exact round_natCast hk

/-! ## The export stub -/

/-- C3: `export_dmabuf` returns the handle 42, which is non-negative, for every
pointer and size (so for every non-null pointer and positive size); its only
effect is one line printed on standard output; the value returned does not
depend on the pointer or on the size. -/
theorem export_dmabuf_stub (ptr : Ptr) (size : ℕ) :
    (export_dmabuf ptr size).2 = 42 ∧ 0 ≤ (export_dmabuf ptr size).2 ∧
      (export_dmabuf ptr size).1 =
        [Effect.printf "Simulating export of dmabuf for memory at %p of size %zu bytes.\n"
          [Arg.ptr ptr, Arg.size size]] ∧
      ∀ (ptr' : Ptr) (size' : ℕ), (export_dmabuf ptr' size').2 = (export_dmabuf ptr size).2 :=
  ⟨rfl, by show (0 : ℤ) ≤ 42; decide, rfl, fun _ _ => rfl⟩

/-! ## The grid -/

/-- C5, as stated, fails at `N = INT_MAX - 255`, which is inside its range: the
`int` sum `N + threadsPerBlock` of line 65 is `INT_MAX + 1`, an overflow, so the
grid size is undefined there, although `⌈N / 256⌉ = 8388607` is an `int`. -/
theorem blocksPerGrid_overflow :
    (0 : ℤ) ≤ 2147483392 ∧ (2147483392 : ℤ) ≤ INT_MAX - 255 ∧
      checkedInt (2147483392 + 256) = none ∧
      blocksPerGrid 2147483392 256 = none ∧
      blocksPerGrid 2147483392 256 ≠ some ⌈((2147483392 : ℤ) : ℚ) / 256⌉ := by
  have h : blocksPerGrid 2147483392 256 = none := by decide
  refine ⟨by decide, by decide, by decide, h, ?_⟩
  rw [h]
  exact Option.noConfusion

/-- C5, amended: for `0 ≤ N ≤ INT_MAX - 256` the grid size computed in `main`, in `int`
arithmetic with the divisor 256, is defined (no division by zero) and equals
`⌈N / 256⌉`; `N = 0` gives 0 blocks, a launch that runs no worker and leaves the
memory as it is; `N = 1024` gives 4 blocks. -/
theorem blocksPerGrid_ceil (n : ℤ) (h0 : 0 ≤ n) (h1 : n ≤ INT_MAX - 256) :
    blocksPerGrid n 256 = some ⌈(n : ℚ) / 256⌉ ∧
      blocksPerGrid 0 256 = some 0 ∧
      gridWorkers (toUInt32 0) (toUInt32 256) = [] ∧
      (∀ (A B C : Ptr) (m : Mem), launchVectorAdd A B C 0 m = some m) ∧
      blocksPerGrid 1024 256 = some 4 := by
  refine ⟨?_, by decide, by decide, ?_, by decide⟩
  · rw [ceil_div_256]
    exact blocksPerGrid_eq h0 h1
  · intro A B C m
    have h : blocksPerGrid 0 256 = some 0 := by decide
    have hw : gridWorkers (toUInt32 0) (toUInt32 256) = [] := by decide
    simp only [launchVectorAdd, h, Option.some_bind, hipLaunchKernelGGL, hw, runWorkers]

theorem blocksPerGrid_ceil_witness :
    blocksPerGrid 2147483391 256 = some ⌈((2147483391 : ℤ) : ℚ) / 256⌉ ∧
      blocksPerGrid 0 256 = some 0 ∧
      gridWorkers (toUInt32 0) (toUInt32 256) = [] ∧
      (∀ (A B C : Ptr) (m : Mem), launchVectorAdd A B C 0 m = some m) ∧
      blocksPerGrid 1024 256 = some 4 :=
  blocksPerGrid_ceil 2147483391 (by decide) (by decide)

/-! ## One worker -/

/-- C4, as stated, fails when the output buffer is also an input: with `A` and
`C` the same one-element buffer holding `1.0`, `B[0] = 1.0`, `n = 1` and the
worker of index `0 < n`, the kernel body returns and `A[0]` has become `2.0`;
`A` is not unchanged. -/
theorem vectorAdd_alias_changes_input :
    workerIndex 256 0 0 < 1 ∧
      vectorAdd 1 2 1 1 256 0 0 [[], [F32.fin 1], [F32.fin 1]]
        = some [[], [F32.fin 2], [F32.fin 1]] ∧
      buf [[], [F32.fin 2], [F32.fin 1]] 1 ≠ buf [[], [F32.fin 1], [F32.fin 1]] 1 := by
  have hsum : F32.add (F32.fin 1) (F32.fin 1) = F32.fin 2 := by
    have h := add_natCast (a := 1) (b := 1) (by norm_num)
    norm_num at h
    exact h
  have hidx : workerIndex 256 0 0 = 0 := by decide
  refine ⟨by decide, ?_, by decide⟩
  rw [vectorAdd_eq, hidx, if_pos (by decide), if_pos (by decide)]
  simp only [buf, Int.toNat_zero, List.getD_cons_succ, List.getD_cons_zero, List.set_cons_zero,
    List.set_cons_succ, hsum]

/-- C4, amended: with the output buffer `C` distinct from `A` and `B`, one
execution of the kernel body by the worker of index `i` leaves the memory as it
is when `i ≥ n`; when `i < n` and `i` is an index of `A`, `B` and `C`, it returns
a memory in which `C[i]` is the `float` sum `A[i] + B[i]`, every other element of
`C` is as it was and so is every other buffer (`A` and `B` among them); when
`i < n` and `i` is outside one of the three buffers the behaviour is
undefined. -/
theorem vectorAdd_guard (A B C : Ptr) (n : ℤ) (blockDim blockIdx threadIdx : ℕ) (m : Mem)
    (hCA : C ≠ A) (hCB : C ≠ B) :
    (n ≤ workerIndex blockDim blockIdx threadIdx →
        vectorAdd A B C n blockDim blockIdx threadIdx m = some m) ∧
      (workerIndex blockDim blockIdx threadIdx < n →
        (∀ a b, load m A (workerIndex blockDim blockIdx threadIdx) = some a →
          load m B (workerIndex blockDim blockIdx threadIdx) = some b →
          (workerIndex blockDim blockIdx threadIdx).toNat < (buf m C).length →
          ∃ m', vectorAdd A B C n blockDim blockIdx threadIdx m = some m' ∧
            load m' C (workerIndex blockDim blockIdx threadIdx) = some (F32.add a b) ∧
            (∀ j : ℤ, j ≠ workerIndex blockDim blockIdx threadIdx →
              load m' C j = load m C j) ∧
            (buf m' C).length = (buf m C).length ∧
            buf m' A = buf m A ∧ buf m' B = buf m B ∧
            ∀ p, p ≠ C → buf m' p = buf m p) ∧
        ((load m A (workerIndex blockDim blockIdx threadIdx) = none ∨
            load m B (workerIndex blockDim blockIdx threadIdx) = none ∨
            ¬ (workerIndex blockDim blockIdx threadIdx).toNat < (buf m C).length) →
          vectorAdd A B C n blockDim blockIdx threadIdx m = none)) := by
  generalize hi : workerIndex blockDim blockIdx threadIdx = i
  refine ⟨?_, ?_⟩
  · intro h
    rw [vectorAdd_eq, hi, if_neg (not_lt.mpr h)]
  · intro hin
    refine ⟨?_, ?_⟩
    · intro a b ha hb hC
      have hCm : C < m.length := lt_length_of_buf hC
      obtain ⟨h0, hAlt⟩ := load_lt ha
      obtain ⟨_, hBlt⟩ := load_lt hb
      have ha' : (buf m A).getD i.toNat F32.nan = a := by
        rw [load_eq_some_iff] at ha
        rw [List.getD_eq_getElem?_getD, ha.2, Option.getD_some]
      have hb' : (buf m B).getD i.toNat F32.nan = b := by
        rw [load_eq_some_iff] at hb
        rw [List.getD_eq_getElem?_getD, hb.2, Option.getD_some]
      refine ⟨m.set C ((buf m C).set i.toNat (F32.add a b)), ?_, ?_, ?_, ?_, ?_, ?_, ?_⟩
      · rw [vectorAdd_eq, hi, if_pos hin, if_pos ⟨h0, hAlt, hBlt, hC⟩, ha', hb']
      · simp only [load, if_pos h0, buf_set_same _ hCm, List.getElem?_set, if_true, if_pos hC]
      · intro j hj
        unfold load
        by_cases hj0 : 0 ≤ j
        · have hne : i.toNat ≠ j.toNat := by omega
          simp only [if_pos hj0, buf_set_same _ hCm, List.getElem?_set, if_neg hne]
        · simp only [if_neg hj0]
      · rw [buf_set_same _ hCm, List.length_set]
      · exact buf_set_ne _ hCA
      · exact buf_set_ne _ hCB
      · intro p hp
        exact buf_set_ne _ (Ne.symm hp)
    · intro hbad
      rw [vectorAdd_eq, hi, if_pos hin, if_neg]
      rintro ⟨h0, hA, hB, hC⟩
      rcases hbad with h | h | h
      · rw [load_isSome h0 hA] at h
        exact Option.some_ne_none _ h
      · rw [load_isSome h0 hB] at h
        exact Option.some_ne_none _ h
      · exact h hC

theorem vectorAdd_guard_witness :
    (2 ≤ workerIndex 256 0 1 →
        vectorAdd 1 2 3 2 256 0 1
          [[], [F32.fin 1, F32.fin 2], [F32.fin 3, F32.fin 4], [F32.nan, F32.nan, F32.nan]]
          = some [[], [F32.fin 1, F32.fin 2], [F32.fin 3, F32.fin 4],
            [F32.nan, F32.nan, F32.nan]]) ∧
      (workerIndex 256 0 1 < 2 →
        (∀ a b,
          load [[], [F32.fin 1, F32.fin 2], [F32.fin 3, F32.fin 4],
            [F32.nan, F32.nan, F32.nan]] 1 (workerIndex 256 0 1) = some a →
          load [[], [F32.fin 1, F32.fin 2], [F32.fin 3, F32.fin 4],
            [F32.nan, F32.nan, F32.nan]] 2 (workerIndex 256 0 1) = some b →
          (workerIndex 256 0 1).toNat <
            (buf [[], [F32.fin 1, F32.fin 2], [F32.fin 3, F32.fin 4],
              [F32.nan, F32.nan, F32.nan]] 3).length →
          ∃ m', vectorAdd 1 2 3 2 256 0 1
              [[], [F32.fin 1, F32.fin 2], [F32.fin 3, F32.fin 4],
                [F32.nan, F32.nan, F32.nan]] = some m' ∧
            load m' 3 (workerIndex 256 0 1) = some (F32.add a b) ∧
            (∀ j : ℤ, j ≠ workerIndex 256 0 1 →
              load m' 3 j = load [[], [F32.fin 1, F32.fin 2], [F32.fin 3, F32.fin 4],
                [F32.nan, F32.nan, F32.nan]] 3 j) ∧
            (buf m' 3).length = (buf [[], [F32.fin 1, F32.fin 2], [F32.fin 3, F32.fin 4],
              [F32.nan, F32.nan, F32.nan]] 3).length ∧
            buf m' 1 = buf [[], [F32.fin 1, F32.fin 2], [F32.fin 3, F32.fin 4],
              [F32.nan, F32.nan, F32.nan]] 1 ∧
            buf m' 2 = buf [[], [F32.fin 1, F32.fin 2], [F32.fin 3, F32.fin 4],
              [F32.nan, F32.nan, F32.nan]] 2 ∧
            ∀ p, p ≠ 3 → buf m' p = buf [[], [F32.fin 1, F32.fin 2], [F32.fin 3, F32.fin 4],
              [F32.nan, F32.nan, F32.nan]] p) ∧
        ((load [[], [F32.fin 1, F32.fin 2], [F32.fin 3, F32.fin 4],
              [F32.nan, F32.nan, F32.nan]] 1 (workerIndex 256 0 1) = none ∨
            load [[], [F32.fin 1, F32.fin 2], [F32.fin 3, F32.fin 4],
              [F32.nan, F32.nan, F32.nan]] 2 (workerIndex 256 0 1) = none ∨
            ¬ (workerIndex 256 0 1).toNat <
              (buf [[], [F32.fin 1, F32.fin 2], [F32.fin 3, F32.fin 4],
                [F32.nan, F32.nan, F32.nan]] 3).length) →
          vectorAdd 1 2 3 2 256 0 1
            [[], [F32.fin 1, F32.fin 2], [F32.fin 3, F32.fin 4],
              [F32.nan, F32.nan, F32.nan]] = none)) :=
  vectorAdd_guard 1 2 3 2 256 0 1
    [[], [F32.fin 1, F32.fin 2], [F32.fin 3, F32.fin 4], [F32.nan, F32.nan, F32.nan]]
    (by decide) (by decide)

/-! ## Independence of the workers -/

theorem workerIndex_injOn {b1 t1 b2 t2 : ℕ} (ht1 : t1 < 256) (ht2 : t2 < 256)
    (h1 : 256 * b1 + t1 < 2 ^ 32) (h2 : 256 * b2 + t2 < 2 ^ 32)
    (h : workerIndex 256 b1 t1 = workerIndex 256 b2 t2) : b1 = b2 ∧ t1 = t2 := by
  unfold workerIndex wrapInt at h
  rw [Nat.mod_eq_of_lt h1, Nat.mod_eq_of_lt h2] at h
  omega

/-- C9, as stated, fails for workers whose index does not fit `unsigned int`:
the distinct workers `(blockIdx, threadIdx) = (16777216, 1)` and `(0, 1)`, both
with `threadIdx < 256`, compute the same index `i = 1` (`256 * 16777216` is
`2 ^ 32`, which is `0` in `unsigned int`), and with `n = 2` each of them writes
the element `C[1]`. -/
theorem workerIndex_collision :
    ((16777216, 1) : ℕ × ℕ) ≠ (0, 1) ∧ (1 : ℕ) < 256 ∧
      workerIndex 256 16777216 1 = 1 ∧ workerIndex 256 0 1 = 1 ∧
      vectorAdd 1 2 3 2 256 16777216 1
          [[], [F32.fin 1, F32.fin 1], [F32.fin 1, F32.fin 1], [F32.fin 0, F32.fin 0]]
        = some [[], [F32.fin 1, F32.fin 1], [F32.fin 1, F32.fin 1], [F32.fin 0, F32.fin 2]] ∧
      vectorAdd 1 2 3 2 256 0 1
          [[], [F32.fin 1, F32.fin 1], [F32.fin 1, F32.fin 1], [F32.fin 0, F32.fin 0]]
        = some [[], [F32.fin 1, F32.fin 1], [F32.fin 1, F32.fin 1], [F32.fin 0, F32.fin 2]] := by
  have hsum : F32.add (F32.fin 1) (F32.fin 1) = F32.fin 2 := by
    have h := add_natCast (a := 1) (b := 1) (by norm_num)
    norm_num at h
    exact h
  have h1 : workerIndex 256 16777216 1 = 1 := by decide
  have h2 : workerIndex 256 0 1 = 1 := by decide
  have ht : (1 : ℤ).toNat = 1 := rfl
  have hA : (buf [[], [F32.fin 1, F32.fin 1], [F32.fin 1, F32.fin 1], [F32.fin 0, F32.fin 0]]
      1).getD 1 F32.nan = F32.fin 1 := rfl
  have hB : (buf [[], [F32.fin 1, F32.fin 1], [F32.fin 1, F32.fin 1], [F32.fin 0, F32.fin 0]]
      2).getD 1 F32.nan = F32.fin 1 := rfl
  have hC : buf [[], [F32.fin 1, F32.fin 1], [F32.fin 1, F32.fin 1], [F32.fin 0, F32.fin 0]]
      3 = [F32.fin 0, F32.fin 0] := rfl
  have hstep : ∀ b : ℕ, workerIndex 256 b 1 = 1 →
      vectorAdd 1 2 3 2 256 b 1
          [[], [F32.fin 1, F32.fin 1], [F32.fin 1, F32.fin 1], [F32.fin 0, F32.fin 0]]
        = some [[], [F32.fin 1, F32.fin 1], [F32.fin 1, F32.fin 1],
          [F32.fin 0, F32.fin 2]] := by
    intro b hb
    rw [vectorAdd_eq, hb, if_pos (by decide), if_pos (by decide)]
    simp only [ht, hA, hB, hC, hsum]
    rfl
  exact ⟨by decide, by decide, h1, h2, hstep _ h1, hstep _ h2⟩

/-- C9, amended: in a grid of `g` blocks of 256 threads whose global indices fit
`unsigned int` (`256 * g ≤ 2 ^ 32`, as in every grid `main` computes for
`0 ≤ n ≤ INT_MAX - 256`), two workers that compute the same index `i` are the
same worker, so no element of the output is written by two workers; and for
every `n`, every memory in which `C` is distinct from `A` and `B`, every grid and
every two orders `ws1`, `ws2` in which its workers run one after the other, the
two runs have the same outcome (the same memory, or both undefined). -/
theorem workers_order_independent (n : ℤ) (A B C : Ptr) (m : Mem) (g : ℕ)
    (ws1 ws2 : List (ℕ × ℕ)) (hCA : C ≠ A) (hCB : C ≠ B)
    (h1 : ws1.Perm (gridWorkers g 256)) (h2 : ws2.Perm (gridWorkers g 256)) :
    (256 * g ≤ 2 ^ 32 → ∀ w1 ∈ gridWorkers g 256, ∀ w2 ∈ gridWorkers g 256,
        workerIndex 256 w1.1 w1.2 = workerIndex 256 w2.1 w2.2 → w1 = w2) ∧
      (0 ≤ n → n ≤ INT_MAX - 256 →
        ∃ g', blocksPerGrid n 256 = some g' ∧ 256 * toUInt32 g' ≤ 2 ^ 32) ∧
      runWorkers A B C n 256 ws1 m = runWorkers A B C n 256 ws2 m := by
  refine ⟨?_, ?_, ?_⟩
  · intro hg w1 hw1 w2 hw2 heq
    rw [mem_gridWorkers] at hw1 hw2
    have := workerIndex_injOn hw1.2 hw2.2 (by omega) (by omega) heq
    exact Prod.ext this.1 this.2
  · intro hn0 hn
    refine ⟨_, blocksPerGrid_eq hn0 hn, ?_⟩
    unfold INT_MAX at hn
    rw [toUInt32_of_range (by omega) (by omega)]
    omega
  · rw [runWorkers_perm hCA hCB n 256 h1, runWorkers_perm hCA hCB n 256 h2]

theorem workers_order_independent_witness :
    (256 * 1 ≤ 2 ^ 32 → ∀ w1 ∈ gridWorkers 1 256, ∀ w2 ∈ gridWorkers 1 256,
        workerIndex 256 w1.1 w1.2 = workerIndex 256 w2.1 w2.2 → w1 = w2) ∧
      ((0 : ℤ) ≤ 2 → (2 : ℤ) ≤ INT_MAX - 256 →
        ∃ g', blocksPerGrid 2 256 = some g' ∧ 256 * toUInt32 g' ≤ 2 ^ 32) ∧
      runWorkers 1 2 3 2 256 (gridWorkers 1 256)
          [[], [F32.fin 1, F32.fin 2], [F32.fin 3, F32.fin 4], [F32.nan, F32.nan]] =
        runWorkers 1 2 3 2 256 (gridWorkers 1 256).reverse
          [[], [F32.fin 1, F32.fin 2], [F32.fin 3, F32.fin 4], [F32.nan, F32.nan]] :=
  workers_order_independent 2 1 2 3
    [[], [F32.fin 1, F32.fin 2], [F32.fin 3, F32.fin 4], [F32.nan, F32.nan]] 1
    (gridWorkers 1 256) (gridWorkers 1 256).reverse (by decide) (by decide)
    (List.Perm.refl _) (List.reverse_perm _)

/-! ## The validation scan -/

theorem range_shift (i : ℤ) (k : ℕ) :
    i :: (List.range k).map (fun t : ℕ => i + 1 + (t : ℤ)) =
      (List.range (k + 1)).map (fun t : ℕ => i + (t : ℤ)) := by
  rw [List.range_succ_eq_map, List.map_cons, List.map_map]
  simp only [Nat.cast_zero, add_zero, List.cons.injEq, true_and]
  apply List.map_congr_left
  intro t _
  simp only [Function.comp, Nat.succ_eq_add_one, Nat.cast_add, Nat.cast_one]
  ring

/-- The scan from `i`, with `k = n - i` indices left, all inside the buffers, and
more than `k` guard evaluations allowed: it returns; either it stops at the
least mismatching index `j`, having examined `i .. j` and printed the line of
`j`, or no index mismatches, it has examined all `k` indices and printed
nothing. -/
theorem scanLoop_spec (A B C : Ptr) (m : Mem) (n : ℤ) :
    ∀ (k : ℕ) (i : ℤ) (fuel : ℕ), 0 ≤ i → i + k = n → k < fuel → i + k ≤ INT_MAX →
      i + k ≤ (buf m A).length → i + k ≤ (buf m B).length → i + k ≤ (buf m C).length →
      ∃ r, scanLoop A B C m n i fuel = some r ∧
        ((∃ (j : ℤ) (c a b : F32), i ≤ j ∧ j < i + k ∧
            load m C j = some c ∧ load m A j = some a ∧ load m B j = some b ∧
            mismatch c a b = true ∧
            (∀ j' : ℤ, i ≤ j' → j' < j → mismatchAt A B C m j' = false) ∧
            r.out = [Effect.printf "Error at index %d: %f != %f\n"
              [Arg.int j, Arg.float c, Arg.float (F32.add a b)]] ∧
            r.examined = (List.range ((j - i).toNat + 1)).map (fun t : ℕ => i + (t : ℤ))) ∨
          ((∀ j : ℤ, i ≤ j → j < i + k → mismatchAt A B C m j = false) ∧
            r.out = [] ∧
            r.examined = (List.range k).map (fun t : ℕ => i + (t : ℤ)))) := by
  intro k
  induction k with
  | zero =>
    intro i fuel _ hn hfuel _ _ _ _
    obtain ⟨fuel, rfl⟩ : ∃ f, fuel = f + 1 := ⟨fuel - 1, by omega⟩
    have hguard : ¬ i < n := by
      simp only [Nat.cast_zero, add_zero] at hn
      omega
    refine ⟨⟨[], []⟩, ?_, Or.inr ⟨?_, rfl, rfl⟩⟩
    · simp only [scanLoop, if_neg hguard]
    · intro j h1 h2
      simp only [Nat.cast_zero, add_zero] at h2
      omega
  | succ k ih =>
    intro i fuel hi0 hn hfuel hmax hA hB hC
    obtain ⟨fuel, rfl⟩ : ∃ f, fuel = f + 1 := ⟨fuel - 1, by omega⟩
    unfold INT_MAX at hmax
    push_cast at hn hmax hA hB hC
    have hguard : i < n := by omega
    obtain ⟨c, hcl⟩ : ∃ c, load m C i = some c := ⟨_, load_isSome hi0 (by omega)⟩
    obtain ⟨a, hal⟩ : ∃ a, load m A i = some a := ⟨_, load_isSome hi0 (by omega)⟩
    obtain ⟨b, hbl⟩ : ∃ b, load m B i = some b := ⟨_, load_isSome hi0 (by omega)⟩
    have hat : mismatchAt A B C m i = mismatch c a b := by
      simp only [mismatchAt, hcl, hal, hbl]
    by_cases hmm : mismatch c a b = true
    · refine ⟨⟨[i], [Effect.printf "Error at index %d: %f != %f\n"
        [Arg.int i, Arg.float c, Arg.float (F32.add a b)]]⟩, ?_, Or.inl ?_⟩
      · simp only [scanLoop, if_pos hguard, hcl, hal, hbl, Option.some_bind, hmm, if_true]
      · refine ⟨i, c, a, b, le_refl _, by omega, hcl, hal, hbl, hmm, ?_, rfl, ?_⟩
        · intro j' h1 h2
          omega
        · simp [List.range_succ]
    · have hw : checkedInt (i + 1) = some (i + 1) := checkedInt_of_range (by omega) (by omega)
      obtain ⟨r, hr, hcase⟩ := ih (i + 1) fuel (by omega) (by omega) (by omega)
        (by unfold INT_MAX; omega) (by omega) (by omega) (by omega)
      refine ⟨⟨i :: r.examined, r.out⟩, ?_, ?_⟩
      · simp only [scanLoop, if_pos hguard, hcl, hal, hbl, Option.some_bind, hmm, hw, hr,
          Option.map_some', Bool.false_eq_true, if_false]
      · rcases hcase with ⟨j, c', a', b', h1, h2, hc', ha', hb', hm', hleast, hout, hex⟩ | ⟨hnone, hout, hex⟩
        · refine Or.inl ⟨j, c', a', b', by omega, by omega, hc', ha', hb', hm', ?_, hout, ?_⟩
          · intro j' hj1 hj2
            by_cases hji : j' = i
            · rw [hji, hat]
              simpa using hmm
            · exact hleast j' (by omega) hj2
          · show i :: r.examined = _
            rw [hex]
            have e : (j - i).toNat = (j - (i + 1)).toNat + 1 := by omega
            rw [e]
            exact range_shift i _
        · refine Or.inr ⟨?_, hout, ?_⟩
          · intro j hj1 hj2
            by_cases hji : j = i
            · rw [hji, hat]
              simpa using hmm
            · exact hnone j (by omega) (by omega)
          · show i :: r.examined = _
            rw [hex]
            exact range_shift i k

theorem validate_spec (m : Mem) (hA : N ≤ (buf m h_A).length) (hB : N ≤ (buf m h_B).length)
    (hC : N ≤ (buf m h_C).length) :
    ∃ r, validate m = some r ∧
      ((∃ (j : ℤ) (c a b : F32), 0 ≤ j ∧ j < N ∧
          load m h_C j = some c ∧ load m h_A j = some a ∧ load m h_B j = some b ∧
          mismatch c a b = true ∧
          (∀ j' : ℤ, 0 ≤ j' → j' < j → mismatchAt h_A h_B h_C m j' = false) ∧
          r.out = [Effect.printf "Error at index %d: %f != %f\n"
            [Arg.int j, Arg.float c, Arg.float (F32.add a b)]] ∧
          r.examined = (List.range (j.toNat + 1)).map (fun t : ℕ => (t : ℤ))) ∨
        ((∀ j : ℤ, 0 ≤ j → j < N → mismatchAt h_A h_B h_C m j = false) ∧
          r.out = [] ∧
          r.examined = (List.range N.toNat).map (fun t : ℕ => (t : ℤ)))) := by
  have hN : N = ((1024 : ℕ) : ℤ) := rfl
  have hNn : N.toNat = 1024 := rfl
  obtain ⟨r, hr, h⟩ := scanLoop_spec h_A h_B h_C m N 1024 0 1025 (le_refl _) (by decide)
    (by decide) (by decide) (by rw [zero_add, ← hN]; exact hA)
    (by rw [zero_add, ← hN]; exact hB) (by rw [zero_add, ← hN]; exact hC)
  refine ⟨r, by rw [validate, hNn]; exact hr, ?_⟩
  simp only [zero_add, sub_zero, ← hN] at h
  rw [hNn]
  exact h

/-- C8: on host buffers of at least `N` elements the validation scan returns.
It prints a mismatch line exactly when some index of `[0, N)` fails the test of
line 73; it prints at most one line; the line it prints is that of the least
failing index `i`, with the values `C[i]` and `A[i] + B[i]`; the indices it
examines are `0, 1, ..., i` in this order, so none after the first mismatch, and
`0, ..., N - 1` when no index fails. -/
theorem validate_first_mismatch (m : Mem) (hA : N ≤ (buf m h_A).length)
    (hB : N ≤ (buf m h_B).length) (hC : N ≤ (buf m h_C).length) :
    ∃ r, validate m = some r ∧
      (r.out ≠ [] ↔ ∃ i : ℤ, 0 ≤ i ∧ i < N ∧ mismatchAt h_A h_B h_C m i = true) ∧
      r.out.length ≤ 1 ∧
      (∀ line ∈ r.out, ∃ (i : ℤ) (c a b : F32), 0 ≤ i ∧ i < N ∧
        load m h_C i = some c ∧ load m h_A i = some a ∧ load m h_B i = some b ∧
        mismatchAt h_A h_B h_C m i = true ∧
        line = Effect.printf "Error at index %d: %f != %f\n"
          [Arg.int i, Arg.float c, Arg.float (F32.add a b)] ∧
        (∀ j : ℤ, 0 ≤ j → j < i → mismatchAt h_A h_B h_C m j = false) ∧
        r.examined = (List.range (i.toNat + 1)).map (fun t : ℕ => (t : ℤ))) ∧
      (r.out = [] → r.examined = (List.range N.toNat).map (fun t : ℕ => (t : ℤ))) := by
  obtain ⟨r, hr, h⟩ := validate_spec m hA hB hC
  refine ⟨r, hr, ?_⟩
  rcases h with ⟨j, c, a, b, h0, h1, hc, ha, hb, hm, hleast, hout, hex⟩ | ⟨hnone, hout, hex⟩
  · have hat : mismatchAt h_A h_B h_C m j = true := by
      simp only [mismatchAt, hc, ha, hb, hm]
    refine ⟨?_, ?_, ?_, ?_⟩
    · constructor
      · intro _
        exact ⟨j, h0, h1, hat⟩
      · intro _
        rw [hout]
        exact List.cons_ne_nil _ _
    · rw [hout]
      exact le_refl _
    · intro line hline
      rw [hout, List.mem_singleton] at hline
      exact ⟨j, c, a, b, h0, h1, hc, ha, hb, hat, hline, hleast, hex⟩
    · intro hnil
      rw [hout] at hnil
      exact absurd hnil (List.cons_ne_nil _ _)
  · refine ⟨?_, ?_, ?_, ?_⟩
    · constructor
      · intro hne
        exact absurd hout hne
      · rintro ⟨i, h0, h1, hi⟩
        rw [hnone i h0 h1] at hi
        exact absurd hi (by decide)
    · rw [hout]
      exact Nat.zero_le _
    · intro line hline
      rw [hout] at hline
      exact absurd hline (List.not_mem_nil _)
    · intro _
      exact hex

/-! ## The steps of `main` before the scan -/

theorem store_spec {m : Mem} {p : Ptr} {i : ℤ} (v : F32) (h0 : 0 ≤ i)
    (h : i.toNat < (buf m p).length) :
    store m p i v = some (m.set p ((buf m p).set i.toNat v)) := by
  unfold store
  rw [if_pos ⟨h0, h⟩]

/-- The initialisation loop from `i`, with `k = n - i` indices left, inside two
distinct buffers, and more than `k` guard evaluations allowed: it returns,
writes `(float)j` at every index `j` of `[i, n)` of both buffers and nothing
else. -/
theorem initLoop_spec {A B : Ptr} (hAB : A ≠ B) (n : ℤ) :
    ∀ (k : ℕ) (i : ℤ) (fuel : ℕ) (m : Mem), 0 ≤ i → i + k = n → k < fuel →
      i + k ≤ INT_MAX → i + k ≤ (buf m A).length → i + k ≤ (buf m B).length →
      ∃ m', initLoop A B n i fuel m = some m' ∧ m'.length = m.length ∧
        (∀ p, p ≠ A → p ≠ B → buf m' p = buf m p) ∧
        (buf m' A).length = (buf m A).length ∧ (buf m' B).length = (buf m B).length ∧
        (∀ j : ℕ, i ≤ j → (j : ℤ) < i + k →
          (buf m' A)[j]? = some (F32.ofInt j) ∧ (buf m' B)[j]? = some (F32.ofInt j)) ∧
        (∀ j : ℕ, ¬ (i ≤ j ∧ (j : ℤ) < i + k) →
          (buf m' A)[j]? = (buf m A)[j]? ∧ (buf m' B)[j]? = (buf m B)[j]?) := by
  intro k
  induction k with
  | zero =>
    intro i fuel m _ hn hfuel _ _ _
    obtain ⟨fuel, rfl⟩ : ∃ f, fuel = f + 1 := ⟨fuel - 1, by omega⟩
    have hguard : ¬ i < n := by
      simp only [Nat.cast_zero, add_zero] at hn
      omega
    refine ⟨m, ?_, rfl, fun _ _ _ => rfl, rfl, rfl, ?_, fun _ _ => ⟨rfl, rfl⟩⟩
    · simp only [initLoop, if_neg hguard]
    · intro j h1 h2
      simp only [Nat.cast_zero, add_zero] at h2
      omega
  | succ k ih =>
    intro i fuel m hi0 hn hfuel hmax hA hB
    obtain ⟨fuel, rfl⟩ : ∃ f, fuel = f + 1 := ⟨fuel - 1, by omega⟩
    unfold INT_MAX at hmax
    push_cast at hn hmax hA hB
    have hguard : i < n := by omega
    have hiA : i.toNat < (buf m A).length := by omega
    have hiB : i.toNat < (buf m B).length := by omega
    have hAm : A < m.length := lt_length_of_buf hiA
    have hBm : B < m.length := lt_length_of_buf hiB
    have hw : checkedInt (i + 1) = some (i + 1) := checkedInt_of_range (by omega) (by omega)
    have s1 := store_spec (F32.ofInt i) hi0 hiA
    revert s1
    generalize hm1 : m.set A ((buf m A).set i.toNat (F32.ofInt i)) = m1
    intro s1
    have a1 : buf m1 A = (buf m A).set i.toNat (F32.ofInt i) := by
      rw [← hm1, buf_set_same _ hAm]
    have b1 : buf m1 B = buf m B := by rw [← hm1, buf_set_ne _ hAB]
    have l1 : m1.length = m.length := by rw [← hm1, List.length_set]
    have o1 : ∀ p, p ≠ A → buf m1 p = buf m p := by
      intro p hp
      rw [← hm1, buf_set_ne _ (Ne.symm hp)]
    have hiB1 : i.toNat < (buf m1 B).length := by rw [b1]; exact hiB
    have s2 := store_spec (F32.ofInt i) hi0 hiB1
    revert s2
    generalize hm2 : m1.set B ((buf m1 B).set i.toNat (F32.ofInt i)) = m2
    intro s2
    have hBm1 : B < m1.length := by rw [l1]; exact hBm
    have b2 : buf m2 B = (buf m B).set i.toNat (F32.ofInt i) := by
      rw [← hm2, buf_set_same _ hBm1, b1]
    have a2 : buf m2 A = (buf m A).set i.toNat (F32.ofInt i) := by
      rw [← hm2, buf_set_ne _ (Ne.symm hAB), a1]
    have l2 : m2.length = m.length := by rw [← hm2, List.length_set, l1]
    have o2 : ∀ p, p ≠ A → p ≠ B → buf m2 p = buf m p := by
      intro p hpA hpB
      rw [← hm2, buf_set_ne _ (Ne.symm hpB), o1 p hpA]
    have la2 : (buf m2 A).length = (buf m A).length := by rw [a2, List.length_set]
    have lb2 : (buf m2 B).length = (buf m B).length := by rw [b2, List.length_set]
    obtain ⟨m', hrun, hlen, hoth, hlA, hlB, hin, hout⟩ := ih (i + 1) fuel m2 (by omega)
      (by omega) (by omega) (by unfold INT_MAX; omega) (by rw [la2]; omega)
      (by rw [lb2]; omega)
    refine ⟨m', ?_, by rw [hlen, l2], ?_, by rw [hlA, la2], by rw [hlB, lb2], ?_, ?_⟩
    · simp only [initLoop, if_pos hguard, s1, Option.some_bind, s2, hw, hrun]
    · intro p hpA hpB
      rw [hoth p hpA hpB, o2 p hpA hpB]
    · intro j h1 h2
      by_cases hji : (j : ℤ) = i
      · have hno : ¬ (i + 1 ≤ (j : ℤ) ∧ (j : ℤ) < i + 1 + k) := by omega
        have hjn : i.toNat = j := by omega
        obtain ⟨eA, eB⟩ := hout j hno
        rw [eA, eB, a2, b2, hji]
        constructor
        · rw [List.getElem?_set, if_pos hjn, if_pos hiA]
        · rw [List.getElem?_set, if_pos hjn, if_pos hiB]
      · exact hin j (by omega) (by push_cast at h2; omega)
    · intro j hj
      have hno : ¬ (i + 1 ≤ (j : ℤ) ∧ (j : ℤ) < i + 1 + k) := by
        push_cast at hj
        omega
      have hjn : i.toNat ≠ j := by
        push_cast at hj
        omega
      obtain ⟨eA, eB⟩ := hout j hno
      rw [eA, eB, a2, b2]
      constructor
      · rw [List.getElem?_set, if_neg hjn]
      · rw [List.getElem?_set, if_neg hjn]

theorem allocate_spec (env : Env) (m : Mem) (p : Ptr) (size : ℤ) (hp : p < m.length) :
    (allocate env m p size).length = m.length ∧
      buf (allocate env m p size) p =
        (List.range (toSizeT size / sizeofFloat)).map (env.junk p) ∧
      ∀ q, q ≠ p → buf (allocate env m p size) q = buf m q := by
  unfold allocate
  refine ⟨List.length_set _ _ _, buf_set_same _ hp, ?_⟩
  intro q hq
  exact buf_set_ne _ (Ne.symm hq)

theorem memcpy_spec (m : Mem) (dst src : Ptr) (size : ℤ)
    (hs : (buf m src).length = toSizeT size / sizeofFloat)
    (hd : (buf m dst).length = toSizeT size / sizeofFloat) (hdm : dst < m.length) :
    ∃ m', memcpy m dst src size = some m' ∧ m'.length = m.length ∧
      buf m' dst = buf m src ∧ ∀ q, q ≠ dst → buf m' q = buf m q := by
  refine ⟨m.set dst (buf m src), ?_, List.length_set _ _ _, buf_set_same _ hdm, ?_⟩
  · unfold memcpy
    simp only
    rw [if_pos ⟨le_of_eq hs.symm, le_of_eq hd.symm⟩, List.take_of_length_le (le_of_eq hs),
      List.drop_of_length_le (le_of_eq hd), List.append_nil]
  · intro q hq
    exact buf_set_ne _ (Ne.symm hq)

theorem mismatch_exact (j : ℕ) (hj : j < 1024) :
    mismatch (F32.fin ((2 * j : ℕ) : ℚ)) (F32.fin (j : ℚ)) (F32.fin (j : ℚ)) = false := by
  have hsum : F32.add (F32.fin (j : ℚ)) (F32.fin (j : ℚ)) = F32.fin ((2 * j : ℕ) : ℚ) := by
    rw [add_natCast (by omega), two_mul]
  unfold mismatch
  rw [hsum]
  have hsub : F32.sub (F32.fin ((2 * j : ℕ) : ℚ)) (F32.fin ((2 * j : ℕ) : ℚ)) = F32.fin 0 := by
    show F32.round (((2 * j : ℕ) : ℚ) + -((2 * j : ℕ) : ℚ)) = F32.fin 0
    rw [add_neg_cancel]
    unfold F32.round
    rw [if_pos rfl]
  rw [hsub]
  show decide (tolerance < |(0 : ℚ)|) = false
  rw [abs_zero, decide_eq_false_iff_not, not_lt]
  unfold tolerance
  positivity

theorem load_natCast (m : Mem) (p : Ptr) (j : ℕ) : load m p (j : ℤ) = (buf m p)[j]? := by
  unfold load
  rw [if_pos (Int.natCast_nonneg j), Int.toNat_ofNat]

/-- Lines 30 to 69 of `main` return; the export gives the handle 42, the three
host buffers have `N` elements, `h_A[j] = h_B[j] = j` and `h_C[j] = 2 * j`. -/
theorem mainToCopy_spec (env : Env) :
    ∃ s, mainToCopy env = some s ∧ s.dmabuf_fd = 42 ∧
      s.effects = effectsToCopy ∧
      (buf s.mem h_A).length = 1024 ∧ (buf s.mem h_B).length = 1024 ∧
      (buf s.mem h_C).length = 1024 ∧
      ∀ j : ℕ, j < 1024 →
        load s.mem h_A j = some (F32.fin (j : ℚ)) ∧
        load s.mem h_B j = some (F32.fin (j : ℚ)) ∧
        load s.mem h_C j = some (F32.fin ((2 * j : ℕ) : ℚ)) := by
  have hk : toSizeT 4096 / sizeofFloat = 1024 := by decide
  have hN : N = 1024 := rfl
  have hblocks : blocksPerGrid 1024 256 = some 4 := by decide
  have hu4 : toUInt32 4 = 4 := by decide
  have hu4096 : toSizeT 4096 = 4096 := by decide
  -- host allocations
  obtain ⟨l1, a1, o1⟩ := allocate_spec env (List.replicate 7 []) h_A 4096 (by decide)
  generalize hm1 : allocate env (List.replicate 7 []) h_A 4096 = m1 at l1 a1 o1
  obtain ⟨l2, a2, o2⟩ := allocate_spec env m1 h_B 4096 (by rw [l1]; decide)
  generalize hm2 : allocate env m1 h_B 4096 = m2 at l2 a2 o2
  obtain ⟨l3, a3, o3⟩ := allocate_spec env m2 h_C 4096 (by rw [l2, l1]; decide)
  generalize hm3 : allocate env m2 h_C 4096 = m3 at l3 a3 o3
  have len3 : m3.length = 7 := by rw [l3, l2, l1]; rfl
  have hA3 : (buf m3 h_A).length = 1024 := by
    rw [o3 h_A (by decide), o2 h_A (by decide), a1, hk, List.length_map, List.length_range]
  have hB3 : (buf m3 h_B).length = 1024 := by
    rw [o3 h_B (by decide), a2, hk, List.length_map, List.length_range]
  have hC3 : (buf m3 h_C).length = 1024 := by
    rw [a3, hk, List.length_map, List.length_range]
  -- initialisation
  obtain ⟨m4, hinit, l4, o4, hA4, hB4, hin4, -⟩ :=
    initLoop_spec (A := h_A) (B := h_B) (by decide) N 1024 0 1025 m3 (le_refl _) (by decide)
      (by decide) (by decide) (by rw [hA3]; decide) (by rw [hB3]; decide)
  rw [hA3] at hA4
  rw [hB3] at hB4
  have hC4 : (buf m4 h_C).length = 1024 := by rw [o4 h_C (by decide) (by decide), hC3]
  -- device allocations
  obtain ⟨l5, a5, o5⟩ := allocate_spec env m4 d_A 4096 (by rw [l4, len3]; decide)
  generalize hm5 : allocate env m4 d_A 4096 = m5 at l5 a5 o5
  obtain ⟨l6, a6, o6⟩ := allocate_spec env m5 d_B 4096 (by rw [l5, l4, len3]; decide)
  generalize hm6 : allocate env m5 d_B 4096 = m6 at l6 a6 o6
  obtain ⟨l7, a7, o7⟩ := allocate_spec env m6 d_C 4096 (by rw [l6, l5, l4, len3]; decide)
  generalize hm7 : allocate env m6 d_C 4096 = m7 at l7 a7 o7
  have len7 : m7.length = 7 := by rw [l7, l6, l5, l4, len3]
  have hostA7 : buf m7 h_A = buf m4 h_A := by
    rw [o7 h_A (by decide), o6 h_A (by decide), o5 h_A (by decide)]
  have hostB7 : buf m7 h_B = buf m4 h_B := by
    rw [o7 h_B (by decide), o6 h_B (by decide), o5 h_B (by decide)]
  have hostC7 : buf m7 h_C = buf m4 h_C := by
    rw [o7 h_C (by decide), o6 h_C (by decide), o5 h_C (by decide)]
  have dA7 : (buf m7 d_A).length = 1024 := by
    rw [o7 d_A (by decide), o6 d_A (by decide), a5, hk, List.length_map, List.length_range]
  have dB7 : (buf m7 d_B).length = 1024 := by
    rw [o7 d_B (by decide), a6, hk, List.length_map, List.length_range]
  have dC7 : (buf m7 d_C).length = 1024 := by
    rw [a7, hk, List.length_map, List.length_range]
  -- host to device copies
  obtain ⟨m8, hcp8, l8, c8, o8⟩ := memcpy_spec m7 d_A h_A 4096 (by rw [hostA7, hA4, hk])
    (by rw [dA7, hk]) (by rw [len7]; decide)
  obtain ⟨m9, hcp9, l9, c9, o9⟩ := memcpy_spec m8 d_B h_B 4096
    (by rw [o8 h_B (by decide), hostB7, hB4, hk]) (by rw [o8 d_B (by decide), dB7, hk])
    (by rw [l8, len7]; decide)
  have dA9 : buf m9 d_A = buf m4 h_A := by rw [o9 d_A (by decide), c8, hostA7]
  have dB9 : buf m9 d_B = buf m4 h_B := by rw [c9, o8 h_B (by decide), hostB7]
  have dC9 : (buf m9 d_C).length = 1024 := by
    rw [o9 d_C (by decide), o8 d_C (by decide), dC7]
  -- the launch
  obtain ⟨m10, -, -, hmain10, hsum, -, lC10, o10⟩ :=
    launchVectorAdd_spec 1024 d_A d_B d_C m9 (by decide) (by decide)
      (by rw [dA9, hA4]; decide) (by rw [dB9, hB4]; decide) (by rw [dC9]; decide)
      (by decide) (by decide)
  have hlaunch := hmain10 (by decide)
  simp only [launchVectorAdd, hblocks, Option.some_bind, hu4, toUInt32_256] at hlaunch
  rw [dC9] at lC10
  -- device to host copy
  obtain ⟨m11, hcp11, l11, c11, o11⟩ := memcpy_spec m10 h_C d_C 4096 (by rw [lC10, hk])
    (by rw [o10 h_C (by decide), o9 h_C (by decide), o8 h_C (by decide), hostC7, hC4, hk])
    (lt_length_of_buf (k := 0) (by
      rw [o10 h_C (by decide), o9 h_C (by decide), o8 h_C (by decide), hostC7, hC4]
      decide))
  have hA11 : buf m11 h_A = buf m4 h_A := by
    rw [o11 h_A (by decide), o10 h_A (by decide), o9 h_A (by decide), o8 h_A (by decide),
      hostA7]
  have hB11 : buf m11 h_B = buf m4 h_B := by
    rw [o11 h_B (by decide), o10 h_B (by decide), o9 h_B (by decide), o8 h_B (by decide),
      hostB7]
  refine ⟨⟨m11, _, 42⟩, ?_, rfl, rfl, by rw [hA11, hA4], by rw [hB11, hB4],
    by rw [c11, lC10], ?_⟩
  · have hsize' : wrapInt (1024 * (sizeofFloat : ℤ)) = 4096 := by decide
    have hNn' : Int.toNat 1024 = 1024 := rfl
    have h42 : (0 : ℤ) ≤ 42 := by decide
    have hinit' : initLoop h_A h_B 1024 0 (1024 + 1) m3 = some m4 := hinit
    simp only [mainToCopy, hN, hsize', hNn', hm1, hm2, hm3, hinit', Option.some_bind, hm5, hm6,
      hm7, hcp8, hcp9, hblocks, hu4, toUInt32_256, hlaunch, hcp11, export_dmabuf, hu4096,
      ge_iff_le, h42, if_true, List.cons_append, List.nil_append]
  · intro j hj
    obtain ⟨eA, eB⟩ := hin4 j (Int.natCast_nonneg j) (by omega)
    rw [ofInt_natCast (by omega)] at eA eB
    have lA : load m9 d_A j = some (F32.fin (j : ℚ)) := by
      rw [load_natCast, dA9, eA]
    have lB : load m9 d_B j = some (F32.fin (j : ℚ)) := by
      rw [load_natCast, dB9, eB]
    obtain ⟨a, b, ha, hb, hc⟩ := hsum j (Int.natCast_nonneg j) (by omega)
    rw [lA] at ha
    rw [lB] at hb
    cases ha
    cases hb
    rw [add_natCast (by omega), ← two_mul] at hc
    refine ⟨?_, ?_, ?_⟩
    · rw [load_natCast, hA11, eA]
    · rw [load_natCast, hB11, eB]
    · rw [load_natCast, c11, ← load_natCast, hc]

theorem sampleHost_length (c : F32) :
    N ≤ (buf (sampleHost c) h_A).length ∧ N ≤ (buf (sampleHost c) h_B).length ∧
      N ≤ (buf (sampleHost c) h_C).length := by
  have eA : buf (sampleHost c) h_A = List.replicate 1024 (F32.fin 0) := rfl
  have eB : buf (sampleHost c) h_B = List.replicate 1024 (F32.fin 0) := rfl
  have eC : buf (sampleHost c) h_C = List.replicate 1024 c := rfl
  rw [eA, eB, eC, List.length_replicate, List.length_replicate]
  exact ⟨le_refl _, le_refl _, le_refl _⟩

theorem validate_first_mismatch_witness :
    ∃ r, validate (sampleHost (F32.fin 1)) = some r ∧
      (r.out ≠ [] ↔ ∃ i : ℤ, 0 ≤ i ∧ i < N ∧
        mismatchAt h_A h_B h_C (sampleHost (F32.fin 1)) i = true) ∧
      r.out.length ≤ 1 ∧
      (∀ line ∈ r.out, ∃ (i : ℤ) (c a b : F32), 0 ≤ i ∧ i < N ∧
        load (sampleHost (F32.fin 1)) h_C i = some c ∧
        load (sampleHost (F32.fin 1)) h_A i = some a ∧
        load (sampleHost (F32.fin 1)) h_B i = some b ∧
        mismatchAt h_A h_B h_C (sampleHost (F32.fin 1)) i = true ∧
        line = Effect.printf "Error at index %d: %f != %f\n"
          [Arg.int i, Arg.float c, Arg.float (F32.add a b)] ∧
        (∀ j : ℤ, 0 ≤ j → j < i → mismatchAt h_A h_B h_C (sampleHost (F32.fin 1)) j = false) ∧
        r.examined = (List.range (i.toNat + 1)).map (fun t : ℕ => (t : ℤ))) ∧
      (r.out = [] → r.examined = (List.range N.toNat).map (fun t : ℕ => (t : ℤ))) :=
  validate_first_mismatch (sampleHost (F32.fin 1)) (sampleHost_length _).1
    (sampleHost_length _).2.1 (sampleHost_length _).2.2

/-! ## The whole run -/

theorem mainAfterCopy_spec (m : Mem) (fd : ℤ) (hA : N ≤ (buf m h_A).length)
    (hB : N ≤ (buf m h_B).length) (hC : N ≤ (buf m h_C).length) :
    ∃ r, validate m = some r ∧ mainAfterCopy m fd = some ⟨r.out ++ finish fd, 0⟩ ∧
      (r.out = [] ∨ ∃ (i : ℤ) (c s : F32), r.out =
        [Effect.printf "Error at index %d: %f != %f\n" [Arg.int i, Arg.float c, Arg.float s]]) := by
  obtain ⟨r, hr, h⟩ := validate_spec m hA hB hC
  refine ⟨r, hr, ?_, ?_⟩
  · simp only [mainAfterCopy, hr, Option.map_some']
  · rcases h with ⟨j, c, a, b, -, -, -, -, -, -, -, hout, -⟩ | ⟨-, hout, -⟩
    · exact Or.inr ⟨j, c, F32.add a b, hout⟩
    · exact Or.inl hout

theorem errorLine_ne_successLine (i : ℤ) (c s : F32) :
    Effect.printf "Error at index %d: %f != %f\n" [Arg.int i, Arg.float c, Arg.float s] ≠
      successLine := by
  unfold successLine
  intro h
  injection h with h1 h2
  exact absurd h2 (List.cons_ne_nil _ _)

/-- The run of `main`: it returns with status 0; the scan finds no mismatch and
prints nothing; the effects are those of lines 30 to 69 followed by those of
lines 78 to 90 with the handle 42. -/
theorem main_spec (env : Env) :
    ∃ s r, mainToCopy env = some s ∧ s.dmabuf_fd = 42 ∧ s.effects = effectsToCopy ∧
      validate s.mem = some r ∧
      (∀ j : ℤ, 0 ≤ j → j < N → mismatchAt h_A h_B h_C s.mem j = false) ∧ r.out = [] ∧
      main env = some ⟨effectsToCopy ++ finish 42, 0⟩ := by
  obtain ⟨s, hs, hfd, heff, lA, lB, lC, hval⟩ := mainToCopy_spec env
  have hN : N = 1024 := rfl
  have hnone : ∀ j : ℤ, 0 ≤ j → j < N → mismatchAt h_A h_B h_C s.mem j = false := by
    intro j h0 h1
    rw [hN] at h1
    obtain ⟨k, rfl⟩ := Int.eq_ofNat_of_zero_le h0
    have hk : k < 1024 := by omega
    obtain ⟨eA, eB, eC⟩ := hval k hk
    simp only [mismatchAt, eA, eB, eC]
    exact mismatch_exact k hk
  obtain ⟨r, hr, h⟩ := validate_spec s.mem (by rw [lA]; decide) (by rw [lB]; decide)
    (by rw [lC]; decide)
  have hout : r.out = [] := by
    rcases h with ⟨j, c, a, b, h0, h1, hc, ha, hb, hm, -, -, -⟩ | ⟨-, hout, -⟩
    · have := hnone j h0 h1
      simp only [mismatchAt, hc, ha, hb] at this
      rw [this] at hm
      exact absurd hm (by decide)
    · exact hout
  refine ⟨s, r, hs, hfd, heff, hr, hnone, hout, ?_⟩
  simp only [main, hs, Option.some_bind, mainAfterCopy, hr, Option.map_some', hout,
    List.nil_append, hfd, heff]

/-- C2: in the run of `main` (`N = 1024`, every allocation and copy succeeding),
after the device-to-host copy `h_A[i] = h_B[i] = (float)i` and `h_C[i]` is exactly
`2 * i` for every `i` in `[0, 1024)`; no index fails the test of line 73; the
scan returns having printed nothing, and no `Error at index` line is among the
effects of the run. -/
theorem main_run_validates (env : Env) :
    ∃ s r run, mainToCopy env = some s ∧
      (∀ i : ℕ, i < 1024 →
        load s.mem h_A i = some (F32.ofInt i) ∧ load s.mem h_B i = some (F32.ofInt i) ∧
        load s.mem h_C i = some (F32.fin (2 * (i : ℚ)))) ∧
      (∀ i : ℤ, 0 ≤ i → i < N → mismatchAt h_A h_B h_C s.mem i = false) ∧
      validate s.mem = some r ∧ r.out = [] ∧
      main env = some run ∧
      ∀ format args, Effect.printf format args ∈ run.effects →
        format ≠ "Error at index %d: %f != %f\n" := by
  obtain ⟨s, r, hs, -, -, hr, hnone, hout, hmain⟩ := main_spec env
  obtain ⟨s', hs', -, -, -, -, -, hval⟩ := mainToCopy_spec env
  rw [hs] at hs'
  cases hs'
  refine ⟨s, r, _, hs, ?_, hnone, hr, hout, hmain, ?_⟩
  · intro i hi
    obtain ⟨eA, eB, eC⟩ := hval i hi
    rw [ofInt_natCast (by omega)]
    refine ⟨eA, eB, ?_⟩
    rw [eC]
    push_cast
    rfl
  · intro format args hmem
    simp only [effectsToCopy, finish, List.mem_append, List.mem_cons, List.mem_singleton,
      Effect.printf.injEq, List.not_mem_nil, or_false, false_or, reduceCtorEq] at hmem
    rcases hmem with (⟨h, -⟩ | ⟨h, -⟩) | (⟨h, -⟩ | h)
    · rw [h]; decide
    · rw [h]; decide
    · rw [h]; decide
    · split_ifs at h <;> simp at h

/-- C6: `main` exits with status 0.  For every memory left by the
device-to-host copy (host buffers of at least `N` elements, any contents, so
whether or not the scan reports a mismatch) and every handle, lines 71 to 92
return the status 0; and the run of `main` returns the status 0. -/
theorem main_exit_status (m : Mem) (fd : ℤ) (hA : N ≤ (buf m h_A).length)
    (hB : N ≤ (buf m h_B).length) (hC : N ≤ (buf m h_C).length) :
    (∃ run, mainAfterCopy m fd = some run ∧ run.status = 0) ∧
      ∀ env, ∃ run, main env = some run ∧ run.status = 0 := by
  constructor
  · obtain ⟨r, -, hrun, -⟩ := mainAfterCopy_spec m fd hA hB hC
    exact ⟨_, hrun, rfl⟩
  · intro env
    obtain ⟨s, r, -, -, -, -, -, -, hmain⟩ := main_spec env
    exact ⟨_, hmain, rfl⟩

theorem main_exit_status_witness :
    (∃ run, mainAfterCopy (sampleHost (F32.fin 1)) 42 = some run ∧ run.status = 0) ∧
      ∀ env, ∃ run, main env = some run ∧ run.status = 0 :=
  main_exit_status (sampleHost (F32.fin 1)) 42 (sampleHost_length _).1
    (sampleHost_length _).2.1 (sampleHost_length _).2.2

/-- C7: for every memory left by the device-to-host copy (host buffers of at
least `N` elements, any contents) and every non-negative handle, the effects of
`main` after the scan are, in this order: the line of line 78, the close of the
handle, the release of `d_A`, `d_B`, `d_C`, the release of `h_A`, `h_B`, `h_C`;
the sequence does not depend on what the scan printed.  In the run of `main`
the handle is 42, which is non-negative. -/
theorem release_sequence (m : Mem) (fd : ℤ) (hfd : 0 ≤ fd) (hA : N ≤ (buf m h_A).length)
    (hB : N ≤ (buf m h_B).length) (hC : N ≤ (buf m h_C).length) :
    (∃ r run, validate m = some r ∧ mainAfterCopy m fd = some run ∧
        run.effects = r.out ++
          [successLine, Effect.close fd,
            Effect.hipFree d_A, Effect.hipFree d_B, Effect.hipFree d_C,
            Effect.hipHostFree h_A, Effect.hipHostFree h_B, Effect.hipHostFree h_C]) ∧
      ∀ env, ∃ s run, mainToCopy env = some s ∧ s.dmabuf_fd = 42 ∧ 0 ≤ s.dmabuf_fd ∧
        main env = some run ∧
        run.effects = s.effects ++
          [successLine, Effect.close s.dmabuf_fd,
            Effect.hipFree d_A, Effect.hipFree d_B, Effect.hipFree d_C,
            Effect.hipHostFree h_A, Effect.hipHostFree h_B, Effect.hipHostFree h_C] := by
  have hfin : ∀ x : ℤ, 0 ≤ x → finish x =
      [successLine, Effect.close x, Effect.hipFree d_A, Effect.hipFree d_B, Effect.hipFree d_C,
        Effect.hipHostFree h_A, Effect.hipHostFree h_B, Effect.hipHostFree h_C] := by
    intro x hx
    simp only [finish, successLine, ge_iff_le, hx, if_true, List.cons_append, List.nil_append]
  constructor
  · obtain ⟨r, hr, hrun, -⟩ := mainAfterCopy_spec m fd hA hB hC
    refine ⟨r, _, hr, hrun, ?_⟩
    rw [← hfin fd hfd]
  · intro env
    obtain ⟨s, r, hs, hsfd, heff, -, -, -, hmain⟩ := main_spec env
    refine ⟨s, _, hs, hsfd, by rw [hsfd]; decide, hmain, ?_⟩
    rw [heff, hsfd, ← hfin 42 (by decide)]

theorem release_sequence_witness :
    (∃ r run, validate (sampleHost (F32.fin 1)) = some r ∧
        mainAfterCopy (sampleHost (F32.fin 1)) 42 = some run ∧
        run.effects = r.out ++
          [successLine, Effect.close 42,
            Effect.hipFree d_A, Effect.hipFree d_B, Effect.hipFree d_C,
            Effect.hipHostFree h_A, Effect.hipHostFree h_B, Effect.hipHostFree h_C]) ∧
      ∀ env, ∃ s run, mainToCopy env = some s ∧ s.dmabuf_fd = 42 ∧ 0 ≤ s.dmabuf_fd ∧
        main env = some run ∧
        run.effects = s.effects ++
          [successLine, Effect.close s.dmabuf_fd,
            Effect.hipFree d_A, Effect.hipFree d_B, Effect.hipFree d_C,
            Effect.hipHostFree h_A, Effect.hipHostFree h_B, Effect.hipHostFree h_C] :=
  release_sequence (sampleHost (F32.fin 1)) 42 (by decide) (sampleHost_length _).1
    (sampleHost_length _).2.1 (sampleHost_length _).2.2

/-- C10: for every memory left by the device-to-host copy (host buffers of at
least `N` elements, any contents) and every handle, the effects of lines 71 to
92 are what the scan printed (nothing, or one `Error at index` line), then the
line `Vector addition completed successfully!`, then effects none of which is
that line: it is printed exactly once, after the scan, whatever the scan
found.  In the run of `main` it is printed exactly once. -/
theorem success_line_printed_once (m : Mem) (fd : ℤ) (hA : N ≤ (buf m h_A).length)
    (hB : N ≤ (buf m h_B).length) (hC : N ≤ (buf m h_C).length) :
    (∃ r run post, validate m = some r ∧ mainAfterCopy m fd = some run ∧
        run.effects = r.out ++ successLine :: post ∧
        successLine ∉ r.out ∧ successLine ∉ post ∧
        (r.out = [] ∨ ∃ (i : ℤ) (c s : F32), r.out =
          [Effect.printf "Error at index %d: %f != %f\n"
            [Arg.int i, Arg.float c, Arg.float s]])) ∧
      ∀ env, ∃ run pre post, main env = some run ∧
        run.effects = pre ++ successLine :: post ∧ successLine ∉ pre ∧ successLine ∉ post := by
  have hpost : ∀ x : ℤ, successLine ∉ (if x ≥ 0 then [Effect.close x] else []) ++
      [Effect.hipFree d_A, Effect.hipFree d_B, Effect.hipFree d_C,
        Effect.hipHostFree h_A, Effect.hipHostFree h_B, Effect.hipHostFree h_C] := by
    intro x
    unfold successLine
    split_ifs <;> simp
  constructor
  · obtain ⟨r, hr, hrun, hcases⟩ := mainAfterCopy_spec m fd hA hB hC
    refine ⟨r, _, _, hr, hrun, ?_, ?_, hpost fd, hcases⟩
    · simp only [finish, successLine, List.cons_append, List.nil_append, List.append_assoc]
    · rcases hcases with h | ⟨i, c, s, h⟩
      · rw [h]
        exact List.not_mem_nil _
      · rw [h, List.mem_singleton]
        exact fun e => errorLine_ne_successLine i c s e.symm
  · intro env
    obtain ⟨s, r, -, -, -, -, -, -, hmain⟩ := main_spec env
    refine ⟨_, effectsToCopy, _, hmain, ?_, ?_, hpost 42⟩
    · simp only [finish, successLine, List.cons_append, List.nil_append, List.append_assoc]
    · unfold successLine effectsToCopy
      simp

theorem success_line_printed_once_witness :
    (∃ r run post, validate (sampleHost (F32.fin 1)) = some r ∧
        mainAfterCopy (sampleHost (F32.fin 1)) 42 = some run ∧
        run.effects = r.out ++ successLine :: post ∧
        successLine ∉ r.out ∧ successLine ∉ post ∧
        (r.out = [] ∨ ∃ (i : ℤ) (c s : F32), r.out =
          [Effect.printf "Error at index %d: %f != %f\n"
            [Arg.int i, Arg.float c, Arg.float s]])) ∧
      ∀ env, ∃ run pre post, main env = some run ∧
        run.effects = pre ++ successLine :: post ∧ successLine ∉ pre ∧ successLine ∉ post :=
  success_line_printed_once (sampleHost (F32.fin 1)) 42 (sampleHost_length _).1
    (sampleHost_length _).2.1 (sampleHost_length _).2.2

end VectorAddDmabuf
